import Mathlib

/-!
Verification of the lydia-device gateway core against its specification.

The Python sources are shallowly embedded: strings are Lean `String`s
(manipulated as `List Char`), Python `float` values produced by the parsers
are modelled as exact rationals (`ℚ`, with a distinguished NaN where the
code can produce one), `int` as `ℤ`, dictionaries as association lists with
Python's insertion-order update semantics, and code that can raise returns
`Except Unit`.  Regular expressions are embedded through a small
backtracking engine (`RItem`, `matchSeq`) whose pattern terms mirror the
regex literals of the source and whose greedy, ordered backtracking mirrors
Python's `re` semantics (with `re.MULTILINE` anchors where the source uses
them).
-/

namespace Lydia

/-! ## Python string primitives -/

/-- The whitespace code points recognised by Python's
`str.strip`/`str.split` and by the `\s` class of `re` on `str` patterns
(U+0009-U+000D, U+001C-U+001F, space, U+0085, U+00A0, U+1680,
U+2000-U+200A, U+2028, U+2029, U+202F, U+205F, U+3000). -/
def wsChars : List Char :=
  [' ', '\t', '\n', '\r', '\x0b', '\x0c', '\x1c', '\x1d', '\x1e', '\x1f',
   '\x85', '\xa0', '\u1680', '\u2000', '\u2001', '\u2002', '\u2003',
   '\u2004', '\u2005', '\u2006', '\u2007', '\u2008', '\u2009', '\u200a',
   '\u2028', '\u2029', '\u202f', '\u205f', '\u3000']

def pyWs (c : Char) : Bool :=
  wsChars.contains c

/-- Line boundaries of Python's `str.splitlines` (the sources call it only
after removing every `'\r'`, so `'\r'` is not listed). -/
def nlChars : List Char :=
  ['\n', '\x0b', '\x0c', '\x1c', '\x1d', '\x1e', '\x85', '\u2028', '\u2029']

def pyNl (c : Char) : Bool :=
  nlChars.contains c

def pyStripL (cs : List Char) : List Char :=
  (cs.dropWhile pyWs).rdropWhile pyWs

/-- `str.strip()`. -/
def pyStrip (s : String) : String :=
  String.mk (pyStripL s.toList)

/-- `str.split()` (split on whitespace runs, no empty pieces), on char
lists; `acc` is the current word accumulated in reverse.  Structural
recursion on the character list so the kernel can evaluate it. -/
def pyWordsAux : List Char → List Char → List (List Char)
  | [], acc => if acc = [] then [] else [acc.reverse]
  | c :: rest, acc =>
    if pyWs c then
      if acc = [] then pyWordsAux rest [] else acc.reverse :: pyWordsAux rest []
    else pyWordsAux rest (c :: acc)

def pyWordsL (cs : List Char) : List (List Char) :=
  pyWordsAux cs []

/-- `str.split()` on strings. -/
def pyWords (s : String) : List String :=
  (pyWordsL s.toList).map String.mk

def pyLowerChar (c : Char) : Char :=
  if 'A' ≤ c && c ≤ 'Z' then Char.ofNat (c.toNat + 32) else c

/-- `str.lower()` (ASCII case mapping; the device shell emits ASCII). -/
def pyLower (s : String) : String :=
  String.mk (s.toList.map pyLowerChar)

/-- `ch in s` for a single character `ch`. -/
def pyHasChar (s : String) (c : Char) : Bool :=
  s.toList.contains c

/-- `str.splitlines()` after `\r` removal, on char lists; `acc` is the
current line accumulated in reverse.  Python drops a trailing empty piece
("a\n".splitlines() is ["a"]), which the final case reproduces. -/
def pyLinesAux : List Char → List Char → List (List Char)
  | [], acc => if acc = [] then [] else [acc.reverse]
  | c :: rest, acc =>
    if pyNl c then acc.reverse :: pyLinesAux rest []
    else pyLinesAux rest (c :: acc)

def pyLinesL (cs : List Char) : List (List Char) :=
  pyLinesAux cs []

/-! ## 4.1 Policy (`policy.py`) -/

def BLOCKED_VERBS : List String :=
  ["onkey", "offkey", "laser_en", "continuous", "pulse", "power",
   "laserdac", "drivedc", "drivedc", "pilot", "pilotdac", "piloti",
   "feederon", "feederoff", "feedermove", "outstart", "outstop",
   "instart", "instop", "writeio", "writeall", "reboot", "download",
   "chgboot", "setprocess", "applypro"]

def SAFE_GETTERS : List String :=
  ["status", "worktime", "warning", "error", "lock", "mode", "state",
   "substatus", "getall", "cur_pro", "feeder_pro", "maxpower", "temp",
   "pres", "pressure", "version", "help", "free", "ps", "list_device"]

def SAFE_SETTERS_REQUIRE_PARAMS : List String :=
  ["maxpower", "risetk", "falltk", "gaseatk", "gaslatk", "onwatk",
   "offwatk", "fan", "fanon", "fanduty", "fantemp", "intertimeout"]

def normalize_verb (cmd : String) : String :=
  let t := pyStrip cmd
  if t = "" then pyLower ""
  else pyLower (String.mk ((pyWordsL t.toList).headD []))

def is_allowed (cmd : String) : Bool × String :=
  let c := pyStrip cmd
  if c = "" then (false, "Empty command")
  else if pyHasChar c '\n' || pyHasChar c '\r' then
    (false, "Multiline commands not allowed")
  else if pyHasChar c ';' then (false, "Semicolons not allowed")
  else
    let verb := normalize_verb c
    let args := (pyWords c).drop 1
    if BLOCKED_VERBS.contains verb then (false, "Blocked verb: " ++ verb)
    else if SAFE_SETTERS_REQUIRE_PARAMS.contains verb then
      if args = [] then (false, "Missing parameters for setter: " ++ verb)
      else (true, "Allowed setter-with-params")
    else if SAFE_GETTERS.contains verb then (true, "Allowed getter")
    else (false, "Unknown/unaudited command: " ++ verb)

/-! Specification-side restatement of the policy decision procedure, written
from the words of the (amended) claim C1: the decision is taken on the
whitespace-stripped command, in the fixed order empty / multiline /
semicolon / blocked / setter-needs-params / getter / unknown, with the verb
taken as the lowercased first whitespace-delimited token. -/

inductive Verdict where
  | emptyCmd
  | multiline
  | semicolons
  | blockedV (v : String)
  | missingParams (v : String)
  | setterOk
  | getterOk
  | unknownV (v : String)
deriving DecidableEq, Repr

def claimVerdict (cmd : String) : Verdict :=
  let t := pyStrip cmd
  if t = "" then .emptyCmd
  else if pyHasChar t '\n' || pyHasChar t '\r' then .multiline
  else if pyHasChar t ';' then .semicolons
  else
    let toks := pyWords t
    let verb := pyLower (toks.headD "")
    if BLOCKED_VERBS.contains verb then .blockedV verb
    else if SAFE_SETTERS_REQUIRE_PARAMS.contains verb then
      if toks.length ≤ 1 then .missingParams verb else .setterOk
    else if SAFE_GETTERS.contains verb then .getterOk
    else .unknownV verb

def verdictResult : Verdict → Bool × String
  | .emptyCmd => (false, "Empty command")
  | .multiline => (false, "Multiline commands not allowed")
  | .semicolons => (false, "Semicolons not allowed")
  | .blockedV v => (false, "Blocked verb: " ++ v)
  | .missingParams v => (false, "Missing parameters for setter: " ++ v)
  | .setterOk => (true, "Allowed setter-with-params")
  | .getterOk => (true, "Allowed getter")
  | .unknownV v => (false, "Unknown/unaudited command: " ++ v)

/-! Helper lemmas about stripping. -/

lemma pyStripL_idem (cs : List Char) : pyStripL (pyStripL cs) = pyStripL cs := by
  unfold pyStripL
  have hdrop : (((cs.dropWhile pyWs).rdropWhile pyWs).dropWhile pyWs)
      = (cs.dropWhile pyWs).rdropWhile pyWs := by
    rw [List.dropWhile_eq_self_iff]
    intro hl
    have hpre : (cs.dropWhile pyWs).rdropWhile pyWs <+: cs.dropWhile pyWs :=
      List.rdropWhile_prefix _ _
    have hlen : 0 < (cs.dropWhile pyWs).length :=
      lt_of_lt_of_le hl hpre.length_le
    have hget := hpre.getElem hl
    simp only [List.get_eq_getElem]
    rw [hget]
    have := List.dropWhile_get_zero_not pyWs cs hlen
    simpa using this
  rw [hdrop, List.rdropWhile_idempotent]

lemma toList_mk (cs : List Char) : (String.mk cs).toList = cs := rfl

lemma pyStrip_idem (s : String) : pyStrip (pyStrip s) = pyStrip s := by
  unfold pyStrip
  rw [toList_mk, pyStripL_idem]

lemma headD_map_mk (l : List (List Char)) :
    (l.map String.mk).headD "" = String.mk (l.headD []) := by
  cases l <;> rfl

lemma append_ne_empty (s t : String) (h : s ≠ "") : s ++ t ≠ "" := by
  intro hc
  apply h
  have hl := congrArg String.length hc
  rw [String.length_append] at hl
  have h0 : String.length "" = 0 := rfl
  rw [h0] at hl
  have hs : s.length = 0 := by omega
  cases s with
  | mk data =>
    cases data with
    | nil => rfl
    | cons a l => simp [String.length] at hs

/-- Shared fact: the policy function equals, pointwise, the (amended)
claimed decision order computed on the stripped command. -/
lemma verb_eq (s : String) :
    String.mk ((pyWordsL s.toList).headD []) = (pyWords s).headD "" :=
  (headD_map_mk _).symm

lemma is_allowed_eq_claimVerdict (cmd : String) :
    is_allowed cmd = verdictResult (claimVerdict cmd) := by
  have htl : ∀ (l : List String), (l.tail = [] ↔ l.length ≤ 1) := by
    intro l
    cases l with
    | nil => simp
    | cons a t => cases t <;> simp
  simp only [is_allowed, claimVerdict, normalize_verb, pyStrip_idem, verb_eq]
  split_ifs <;> simp_all [verdictResult, htl]

/-- Claim C1 (counterexample).  The claim prescribes, for every command
string `c` that contains a newline, the verdict (false, multiline reason);
but the code strips the command before the newline check, so the command
"status\n" — which contains a newline — is allowed. -/
theorem C1_policy_order_counterexample :
    pyHasChar "status\n" '\n' = true ∧ (is_allowed "status\n").1 = true := by
  decide

/-- Claim C1 (amended).  `is_allowed` decides in the claimed fixed order —
empty / multiline / semicolons / blocked verb / setter-needs-params /
setter-with-args allowed / getter allowed / unknown — with case-insensitive
matching of the first whitespace-delimited token, except that the newline,
carriage-return and semicolon checks are applied to the command after
stripping leading and trailing whitespace (so a command whose only newline
characters are leading or trailing is not rejected as multiline). -/
theorem C1_policy_order_amended (cmd : String) :
    is_allowed cmd = verdictResult (claimVerdict cmd) :=
  is_allowed_eq_claimVerdict cmd

/-- Claim C2 (counterexample).  The claim states the reason string is
non-empty iff the boolean is false; but on the allowed command "status"
the code returns the non-empty reason "Allowed getter". -/
theorem C2_reason_iff_counterexample :
    ¬ ((is_allowed "status").2 ≠ "" ↔ (is_allowed "status").1 = false) := by
  decide

/-- Claim C2 (amended).  `is_allowed` is a pure function of the command (it
is modelled as a total Lean function of the command string alone), and its
second component is a non-empty string for every input — in particular it
is non-empty whenever the first component is false. -/
theorem C2_reason_nonempty_amended (cmd : String) :
    (is_allowed cmd).2 ≠ "" := by
  rw [is_allowed_eq_claimVerdict]
  cases claimVerdict cmd <;>
    simp only [verdictResult] <;>
    first
      | decide
      | exact append_ne_empty _ _ (by decide)

/-- Claim C3 (counterexample).  The three verb sets are claimed pairwise
disjoint, but the verb "maxpower" belongs to both `SAFE_GETTERS` and
`SAFE_SETTERS_REQUIRE_PARAMS`. -/
theorem C3_disjoint_counterexample :
    "maxpower" ∈ SAFE_GETTERS ∧ "maxpower" ∈ SAFE_SETTERS_REQUIRE_PARAMS := by
  decide

/-- Claim C3 (amended).  `BLOCKED_VERBS` is disjoint from the two safe
sets, and the overlap between `SAFE_GETTERS` and
`SAFE_SETTERS_REQUIRE_PARAMS` is exactly the single verb "maxpower". -/
theorem C3_disjoint_amended :
    BLOCKED_VERBS.all
      (fun v => !(SAFE_GETTERS.contains v || SAFE_SETTERS_REQUIRE_PARAMS.contains v)) = true
    ∧ SAFE_GETTERS.filter (fun v => SAFE_SETTERS_REQUIRE_PARAMS.contains v) = ["maxpower"]
    ∧ SAFE_SETTERS_REQUIRE_PARAMS.filter (fun v => SAFE_GETTERS.contains v) = ["maxpower"] := by
  decide


/-! ## A small regex engine

The regular expressions of the sources are embedded as pattern terms and
matched by a CPS backtracking matcher with Python `re` semantics: leftmost
match, greedy (or lazy) quantifiers tried in Python's backtracking order,
`re.MULTILINE` anchors where the source compiles with that flag.  The
sources nest groups/optionals at most two deep, so patterns are stratified
in three layers (`RTok`, `R1`, `R2`), which keeps every matcher function
structurally recursive and hence evaluable by the kernel. -/

/-- Leaf pattern tokens: literals, character classes with a repetition
range (`lo` to `hi`, `none` meaning unbounded) and a laziness flag, and the
three anchors (`bol` = `^` under MULTILINE, `eolM` = `$` under MULTILINE,
`eolS` = `$` without MULTILINE). -/
inductive RTok where
  | lit (cs : List Char)
  | cls (p : Char → Bool) (lo : Nat) (hi : Option Nat) (lz : Bool)
  | bol
  | eolM
  | eolS

/-- One nesting level: a token, a capturing group of tokens, or an optional
(`(?:...)?`) block of tokens. -/
inductive R1 where
  | tok (t : RTok)
  | grp (idx : Nat) (inner : List RTok)
  | opt (inner : List RTok)

/-- Top level: a token, a capturing group, or an optional block whose
contents may themselves contain one nesting level. -/
inductive R2 where
  | tok (t : RTok)
  | grp (idx : Nat) (inner : List R1)
  | opt (inner : List R1)

/-- Captured groups: group index paired with captured characters; the most
recent capture for an index is consed on front. -/
abbrev Caps := List (Nat × List Char)

def capGet (caps : Caps) (i : Nat) : Option (List Char) :=
  (caps.find? (fun x => x.1 == i)).map (fun x => x.2)

/-- A matcher continuation: previous character (for `^`), remaining input,
captures so far. -/
abbrev MK := Option Char → List Char → Caps → Option (Caps × List Char)

def prevOf (consumed : List Char) (prev : Option Char) : Option Char :=
  match consumed.getLast? with
  | some c => some c
  | none => prev

def bolOk (prev : Option Char) : Bool :=
  match prev with
  | none => true
  | some c => c = '\n'

def eolMOk (s : List Char) : Bool :=
  match s with
  | [] => true
  | c :: _ => c = '\n'

def eolSOk (s : List Char) : Bool :=
  s = [] || s = ['\n']

/-- Candidate repetition counts for a class, in the order Python's
backtracking tries them: greedy = longest first, lazy = shortest first. -/
def lensFor (lo top : Nat) (lz : Bool) : List Nat :=
  if top < lo then []
  else if lz then (List.range (top - lo + 1)).map (fun j => lo + j)
  else (List.range (top - lo + 1)).map (fun j => top - j)

def firstSome {A : Type} (f : Nat → Option A) : List Nat → Option A
  | [] => none
  | n :: ns =>
    match f n with
    | some r => some r
    | none => firstSome f ns

/-- Match a single token at the current position, calling `k` for every
viable way of consuming it, in Python's backtracking order. -/
def matchTok (t : RTok) (prev : Option Char) (s : List Char) (caps : Caps)
    (k : MK) : Option (Caps × List Char) :=
  match t with
  | .lit cs =>
    if cs.isPrefixOf s then k (prevOf cs prev) (s.drop cs.length) caps else none
  | .cls p lo hi lz =>
    let run := (s.takeWhile p).length
    let top := match hi with | none => run | some h => min run h
    firstSome (fun n => k (prevOf (s.take n) prev) (s.drop n) caps)
      (lensFor lo top lz)
  | .bol => if bolOk prev then k prev s caps else none
  | .eolM => if eolMOk s then k prev s caps else none
  | .eolS => if eolSOk s then k prev s caps else none

def matchToks (ts : List RTok) (prev : Option Char) (s : List Char)
    (caps : Caps) (k : MK) : Option (Caps × List Char) :=
  match ts with
  | [] => k prev s caps
  | t :: rest =>
    matchTok t prev s caps (fun p2 s2 c2 => matchToks rest p2 s2 c2 k)

def match1 (xs : List R1) (prev : Option Char) (s : List Char)
    (caps : Caps) (k : MK) : Option (Caps × List Char) :=
  match xs with
  | [] => k prev s caps
  | .tok t :: rest =>
    matchTok t prev s caps (fun p2 s2 c2 => match1 rest p2 s2 c2 k)
  | .grp i inner :: rest =>
    matchToks inner prev s caps (fun p2 s2 c2 =>
      match1 rest p2 s2 ((i, s.take (s.length - s2.length)) :: c2) k)
  | .opt inner :: rest =>
    match matchToks inner prev s caps
        (fun p2 s2 c2 => match1 rest p2 s2 c2 k) with
    | some r => some r
    | none => match1 rest prev s caps k

def match2 (xs : List R2) (prev : Option Char) (s : List Char)
    (caps : Caps) (k : MK) : Option (Caps × List Char) :=
  match xs with
  | [] => k prev s caps
  | .tok t :: rest =>
    matchTok t prev s caps (fun p2 s2 c2 => match2 rest p2 s2 c2 k)
  | .grp i inner :: rest =>
    match1 inner prev s caps (fun p2 s2 c2 =>
      match2 rest p2 s2 ((i, s.take (s.length - s2.length)) :: c2) k)
  | .opt inner :: rest =>
    match match1 inner prev s caps
        (fun p2 s2 c2 => match2 rest p2 s2 c2 k) with
    | some r => some r
    | none => match2 rest prev s caps k

def mkDone : MK := fun _ s2 caps => some (caps, s2)

/-- Try a full pattern match starting exactly at the current position
(`re.match`-style when `prev = none`). -/
def matchHere (xs : List R2) (prev : Option Char) (s : List Char) :
    Option (Caps × List Char) :=
  match2 xs prev s [] mkDone

/-- `re.search`: scan positions left to right, returning at the first one
where the pattern matches; yields the suffix at the match start, the
captures, and the suffix after the match end. -/
def searchStep (xs : List R2) (prev : Option Char) (s : List Char)
    (rec : Option (List Char × Caps × List Char)) :
    Option (List Char × Caps × List Char) :=
  match matchHere xs prev s with
  | some (caps, s2) => some (s, caps, s2)
  | none => rec

def searchAux (xs : List R2) (prev : Option Char) :
    List Char → Option (List Char × Caps × List Char)
  | [] => searchStep xs prev [] none
  | c :: rest => searchStep xs prev (c :: rest) (searchAux xs (some c) rest)

def reSearch (xs : List R2) (s : List Char) : Option (List Char × Caps × List Char) :=
  searchAux xs none s

/-- `re.findall`: non-overlapping leftmost matches, returning for each the
whole matched text and its captures; a zero-width match advances one
character, as in Python. -/
def findAllAux (fuel : Nat) (xs : List R2) (prev : Option Char)
    (s : List Char) : List (List Char × Caps) :=
  match fuel with
  | 0 => []
  | fuel + 1 =>
    match matchHere xs prev s with
    | some (caps, s2) =>
      let consumed := s.take (s.length - s2.length)
      if s2.length < s.length then
        (consumed, caps) :: findAllAux fuel xs (prevOf consumed prev) s2
      else
        ([], caps) ::
          (match s with
            | [] => []
            | c :: rest => findAllAux fuel xs (some c) rest)
    | none =>
      match s with
      | [] => []
      | c :: rest => findAllAux fuel xs (some c) rest

def reFindAll (xs : List R2) (s : List Char) : List (List Char × Caps) :=
  findAllAux (s.length + 1) xs none s

/-! ## Numeric conversions (`float`, `int`) -/

def digitsValN (ds : List Char) : Nat :=
  ds.foldl (fun acc c => 10 * acc + (c.toNat - 48)) 0

/-- `float()` on the strings produced by the numeric groups of the source
regexes (an optional sign, then digits with at most one dot and at least
one digit); returns `none` exactly when Python raises `ValueError`, e.g.
on "1..2". -/
def pyFloatBody (sgn : ℚ) (rest : List Char) : Option ℚ :=
  match rest.drop (rest.takeWhile Char.isDigit).length with
  | [] =>
    if rest.takeWhile Char.isDigit = [] then none
    else some (sgn * (digitsValN (rest.takeWhile Char.isDigit) : ℚ))
  | c :: fr =>
    if c = '.' ∧ fr.all Char.isDigit = true
        ∧ (rest.takeWhile Char.isDigit ≠ [] ∨ fr ≠ []) then
      some (sgn * ((digitsValN (rest.takeWhile Char.isDigit) : ℚ)
        + (digitsValN fr : ℚ) / ((10 : ℚ) ^ fr.length)))
    else none

def pyFloatQ (cs : List Char) : Option ℚ :=
  pyFloatBody (if cs.head? = some '-' then -1 else 1)
    (if cs.head? = some '-' ∨ cs.head? = some '+' then cs.tail else cs)

/-- A Python number as stored in a parsed record: `int` or `float` (the
two serialize differently and compare like their exact values here). -/
inductive PyNum where
  | int (z : ℤ)
  | float (q : ℚ)
deriving DecidableEq, Repr

/-- `int(num) if num.is_integer() else num` for an exact float value. -/
def pyNumOf (q : ℚ) : PyNum :=
  if q.den = 1 then .int q.num else .float q


/-! ## 4.3 GetAll parser (`parse_getall.py`) -/

def isUnitChar (c : Char) : Bool :=
  c.isAlpha || c = '%' || c = '/'

def isSignChar (c : Char) : Bool :=
  c = '+' || c = '-'

/-- `_NUM_UNIT_RE = ^([-+]?\d+(?:\.\d+)?)(?:\s*([A-Za-z%/]+))?\s*$`,
compiled without MULTILINE and applied with `re.match` (anchored at the
start). -/
def numUnitRe : List R2 :=
  [ .grp 1 [ .tok (.cls isSignChar 0 (some 1) false),
             .tok (.cls Char.isDigit 1 none false),
             .opt [ .lit ['.'], .cls Char.isDigit 1 none false ] ],
    .opt [ .tok (.cls pyWs 0 none false),
           .grp 2 [ .cls isUnitChar 1 none false ] ],
    .tok (.cls pyWs 0 none false),
    .tok .eolS ]

structure GetAllValue where
  raw : String
  value : Option PyNum := none
  unit : Option String := none
deriving DecidableEq, Repr

/-- `out[key] = entry` with Python dict semantics: replace in place if the
key exists, else append. -/
def dictUpsert {V : Type} (m : List (String × V)) (k : String) (v : V) :
    List (String × V) :=
  if m.any (fun x => x.1 == k) then
    m.map (fun x => if x.1 == k then (k, v) else x)
  else m ++ [(k, v)]

/-- The line after `strip()` and removal of one leading `'.'`
(`if s.startswith("."): s = s[1:].strip()`). -/
def getallStripped (line : List Char) : List Char :=
  if (pyStripL line).head? = some '.' then pyStripL ((pyStripL line).drop 1)
  else pyStripL line

/-- `key.strip().lower()` for the part before the first `':'`. -/
def getallKey (line : List Char) : String :=
  String.mk ((pyStripL ((getallStripped line).takeWhile (fun c => c ≠ ':'))).map
    pyLowerChar)

/-- `raw.strip()` for the part after the first `':'`. -/
def getallRaw (line : List Char) : List Char :=
  pyStripL (((getallStripped line).dropWhile (fun c => c ≠ ':')).drop 1)

/-- Building one `entry` dict: `{"raw": raw}` plus `value`/`unit` when
`_NUM_UNIT_RE` matches; `float()` of the first group may raise. -/
def getallEntry (rawL : List Char) : Except Unit GetAllValue :=
  match matchHere numUnitRe none rawL with
  | none => pure { raw := String.mk rawL }
  | some (caps, _) =>
    match pyFloatQ ((capGet caps 1).getD []) with
    | none => throw ()
    | some q =>
      pure { raw := String.mk rawL, value := some (pyNumOf q),
             unit := match capGet caps 2 with
               | some us => if us = [] then none else some (String.mk us)
               | none => none }

/-- One line of `parse_getall_block`'s loop body (everything between
`for line in text.splitlines()` and `out[key] = entry`; the local
variables of the loop body are the top-level functions above). -/
def getallLine (out : List (String × GetAllValue)) (line : List Char) :
    Except Unit (List (String × GetAllValue)) :=
  if pyStripL line = [] || pyStripL line = "msh >".toList then pure out
  else if !(getallStripped line).contains ':' then pure out
  else
    match getallEntry (getallRaw line) with
    | .error e => .error e
    | .ok entry => pure (dictUpsert out (getallKey line) entry)

def parse_getall_block (text : String) : Except Unit (List (String × GetAllValue)) :=
  let t := text.toList.filter (fun c => c ≠ '\r')
  (pyLinesL t).foldlM getallLine []


/-! ## Engine lemmas -/

lemma firstSome_head_some {A : Type} {f : Nat → Option A} {n : Nat}
    {ns : List Nat} {r : A} (h : f n = some r) :
    firstSome f (n :: ns) = some r := by
  simp [firstSome, h]

lemma firstSome_some_ex {A : Type} {f : Nat → Option A} {ls : List Nat}
    {r : A} (h : firstSome f ls = some r) : ∃ n ∈ ls, f n = some r := by
  induction ls with
  | nil => simp [firstSome] at h
  | cons n ns ih =>
    cases hf : f n with
    | some v =>
      simp only [firstSome, hf] at h
      exact ⟨n, by simp, by rw [hf, h]⟩
    | none =>
      simp only [firstSome, hf] at h
      rcases ih h with ⟨m, hm, hmf⟩
      exact ⟨m, by simp [hm], hmf⟩

lemma mem_lensFor {lo top : Nat} {lz : Bool} {n : Nat}
    (h : n ∈ lensFor lo top lz) : lo ≤ n ∧ n ≤ top := by
  unfold lensFor at h
  by_cases h1 : top < lo
  · simp [h1] at h
  · rw [if_neg h1] at h
    by_cases h2 : lz <;> simp [h2, List.mem_map, List.mem_range] at h <;>
      rcases h with ⟨j, hj, rfl⟩ <;> omega

lemma lensFor_greedy_head {lo top : Nat} (h : lo ≤ top) :
    ∃ rest, lensFor lo top false = top :: rest := by
  unfold lensFor
  rw [if_neg (by omega)]
  simp only [Bool.false_eq_true, if_false, List.range_succ_eq_map,
    List.map_cons, List.map_map, Nat.sub_zero]
  exact ⟨_, rfl⟩

lemma takeWhile_append_all {p : Char → Bool} {a : List Char} (b : List Char)
    (ha : a.all p = true) :
    (a ++ b).takeWhile p = a ++ b.takeWhile p := by
  induction a with
  | nil => simp
  | cons c t ih =>
    simp only [List.all_cons, Bool.and_eq_true] at ha
    simp [List.takeWhile_cons, ha.1, ih ha.2]

lemma takeWhile_eq_nil_of_head {p : Char → Bool} {b : List Char}
    (hb : ∀ c ∈ b.head?, p c = false) : b.takeWhile p = [] := by
  cases b with
  | nil => rfl
  | cons c t =>
    have := hb c (by simp)
    simp [List.takeWhile_cons, this]

lemma takeWhile_append_stop {p : Char → Bool} {a b : List Char}
    (ha : a.all p = true) (hb : ∀ c ∈ b.head?, p c = false) :
    (a ++ b).takeWhile p = a := by
  rw [takeWhile_append_all b ha, takeWhile_eq_nil_of_head hb, List.append_nil]

lemma take_length_append (a b : List Char) : (a ++ b).take a.length = a := by
  simp

lemma drop_length_append (a b : List Char) : (a ++ b).drop a.length = b := by
  simp

/-- Unfolding equations for the matchers, stated for `simp`. -/
lemma matchTok_lit (cs : List Char) (prev s caps) (k : MK) :
    matchTok (.lit cs) prev s caps k =
      if cs.isPrefixOf s then k (prevOf cs prev) (s.drop cs.length) caps
      else none := rfl

lemma matchTok_cls (p : Char → Bool) (lo : Nat) (hi : Option Nat) (lz : Bool)
    (prev s caps) (k : MK) :
    matchTok (.cls p lo hi lz) prev s caps k =
      firstSome (fun n => k (prevOf (s.take n) prev) (s.drop n) caps)
        (lensFor lo (hi.elim (s.takeWhile p).length
          (fun b => min (s.takeWhile p).length b)) lz) := by
  cases hi <;> rfl

lemma matchTok_eolS (prev s caps) (k : MK) :
    matchTok .eolS prev s caps k =
      if eolSOk s then k prev s caps else none := rfl

lemma match2_nil (prev s caps) (k : MK) : match2 [] prev s caps k = k prev s caps := rfl

lemma match2_tok (t : RTok) (rest : List R2) (prev s caps) (k : MK) :
    match2 (.tok t :: rest) prev s caps k =
      matchTok t prev s caps (fun p2 s2 c2 => match2 rest p2 s2 c2 k) := rfl

lemma match2_grp (i : Nat) (inner : List R1) (rest : List R2) (prev s caps)
    (k : MK) :
    match2 (.grp i inner :: rest) prev s caps k =
      match1 inner prev s caps (fun p2 s2 c2 =>
        match2 rest p2 s2 ((i, s.take (s.length - s2.length)) :: c2) k) := rfl

lemma match2_opt (inner : List R1) (rest : List R2) (prev s caps) (k : MK) :
    match2 (.opt inner :: rest) prev s caps k =
      match (match1 inner prev s caps
          (fun p2 s2 c2 => match2 rest p2 s2 c2 k)) with
        | some r => some r
        | none => match2 rest prev s caps k := rfl

lemma match1_nil (prev s caps) (k : MK) : match1 [] prev s caps k = k prev s caps := rfl

lemma match1_tok (t : RTok) (rest : List R1) (prev s caps) (k : MK) :
    match1 (.tok t :: rest) prev s caps k =
      matchTok t prev s caps (fun p2 s2 c2 => match1 rest p2 s2 c2 k) := rfl

lemma match1_grp (i : Nat) (inner : List RTok) (rest : List R1) (prev s caps)
    (k : MK) :
    match1 (.grp i inner :: rest) prev s caps k =
      matchToks inner prev s caps (fun p2 s2 c2 =>
        match1 rest p2 s2 ((i, s.take (s.length - s2.length)) :: c2) k) := rfl

lemma match1_opt (inner : List RTok) (rest : List R1) (prev s caps) (k : MK) :
    match1 (.opt inner :: rest) prev s caps k =
      match (matchToks inner prev s caps
          (fun p2 s2 c2 => match1 rest p2 s2 c2 k)) with
        | some r => some r
        | none => match1 rest prev s caps k := rfl

lemma matchToks_nil (prev s caps) (k : MK) :
    matchToks [] prev s caps k = k prev s caps := rfl

lemma matchToks_cons (t : RTok) (rest : List RTok) (prev s caps) (k : MK) :
    matchToks (t :: rest) prev s caps k =
      matchTok t prev s caps (fun p2 s2 c2 => matchToks rest p2 s2 c2 k) := rfl

/-- Greedy class consumption: when the continuation succeeds after
consuming exactly the maximal run, the match takes it (first candidate). -/
lemma matchTok_cls_greedy_max {p : Char → Bool} {lo : Nat} {prev s caps}
    {k : MK} {r : Caps × List Char}
    (hlo : lo ≤ (s.takeWhile p).length)
    (h : k (prevOf (s.take (s.takeWhile p).length) prev)
          (s.drop (s.takeWhile p).length) caps = some r) :
    matchTok (.cls p lo none false) prev s caps k = some r := by
  rw [matchTok_cls]
  simp only [Option.elim]
  rcases lensFor_greedy_head hlo with ⟨rest, hrest⟩
  rw [hrest]
  exact firstSome_head_some h

/-- Inversion for class consumption. -/
lemma matchTok_cls_some {p : Char → Bool} {lo : Nat} {hi : Option Nat}
    {lz : Bool} {prev s caps} {k : MK} {r : Caps × List Char}
    (h : matchTok (.cls p lo hi lz) prev s caps k = some r) :
    ∃ n, lo ≤ n ∧ n ≤ (s.takeWhile p).length ∧ (∀ b, hi = some b → n ≤ b) ∧
      k (prevOf (s.take n) prev) (s.drop n) caps = some r := by
  rw [matchTok_cls] at h
  rcases firstSome_some_ex h with ⟨n, hn, hf⟩
  have hb := mem_lensFor hn
  have h2 := hb.2
  cases hi with
  | none =>
    refine ⟨n, hb.1, by simpa using h2, ?_, hf⟩
    intro b hb2
    exact absurd hb2 (by simp)
  | some b =>
    simp only [Option.elim] at h2
    refine ⟨n, hb.1, le_trans h2 (min_le_left _ _), ?_, hf⟩
    intro b2 hb2
    have : b = b2 := by injection hb2
    subst this
    exact le_trans h2 (min_le_right _ _)

/-! ## Character-class facts -/

def isHexChar (c : Char) : Bool :=
  c.isDigit || ('a' ≤ c && c ≤ 'f') || ('A' ≤ c && c ≤ 'F')

lemma bool_eq_false_of {b : Bool} (h : b = true → False) : b = false := by
  cases b with
  | false => rfl
  | true => exact (h rfl).elim

lemma charLe_toNat {a b : Char} (h : a ≤ b) : a.val.toNat ≤ b.val.toNat := by
  rw [Char.le_def] at h
  exact h

lemma charEq_toNat {a b : Char} (h : a = b) : a.val.toNat = b.val.toNat :=
  congrArg (fun x => x.val.toNat) h

lemma pyWs_bounds {c : Char} (h : pyWs c = true) :
    (9 ≤ c.val.toNat ∧ c.val.toNat ≤ 13) ∨
    (28 ≤ c.val.toNat ∧ c.val.toNat ≤ 32) ∨ c.val.toNat = 133 ∨
    c.val.toNat = 160 ∨ c.val.toNat = 5760 ∨
    (8192 ≤ c.val.toNat ∧ c.val.toNat ≤ 8202) ∨ c.val.toNat = 8232 ∨
    c.val.toNat = 8233 ∨ c.val.toNat = 8239 ∨ c.val.toNat = 8287 ∨
    c.val.toNat = 12288 := by
  have hm : c ∈ wsChars := by simpa [pyWs] using h
  fin_cases hm <;> decide

lemma pyNl_bounds {c : Char} (h : pyNl c = true) :
    c.val.toNat = 10 ∨ c.val.toNat = 11 ∨ c.val.toNat = 12 ∨
    c.val.toNat = 28 ∨ c.val.toNat = 29 ∨ c.val.toNat = 30 ∨
    c.val.toNat = 133 ∨ c.val.toNat = 8232 ∨ c.val.toNat = 8233 := by
  have hm : c ∈ nlChars := by simpa [pyNl] using h
  fin_cases hm <;> decide

lemma pyNl_ws {c : Char} (h : pyNl c = true) : pyWs c = true := by
  have hm : c ∈ nlChars := by simpa [pyNl] using h
  fin_cases hm <;> rfl

lemma isDigit_bounds {c : Char} (h : c.isDigit = true) :
    48 ≤ c.val.toNat ∧ c.val.toNat ≤ 57 := by
  simp only [Char.isDigit, decide_eq_true_eq, Bool.and_eq_true] at h
  obtain ⟨h1, h2⟩ := h
  exact ⟨h1, h2⟩

lemma isUnitChar_bounds {c : Char} (h : isUnitChar c = true) :
    (65 ≤ c.val.toNat ∧ c.val.toNat ≤ 90) ∨
    (97 ≤ c.val.toNat ∧ c.val.toNat ≤ 122) ∨
    c.val.toNat = 37 ∨ c.val.toNat = 47 := by
  simp only [isUnitChar, Char.isAlpha, Char.isUpper, Char.isLower,
    Bool.or_eq_true, Bool.and_eq_true, decide_eq_true_eq] at h
  rcases h with ((⟨h1, h2⟩ | ⟨h1, h2⟩) | h) | h
  · exact Or.inl ⟨h1, h2⟩
  · exact Or.inr (Or.inl ⟨h1, h2⟩)
  · exact Or.inr (Or.inr (Or.inl (charEq_toNat h)))
  · exact Or.inr (Or.inr (Or.inr (charEq_toNat h)))

lemma isSignChar_bounds {c : Char} (h : isSignChar c = true) :
    c.val.toNat = 43 ∨ c.val.toNat = 45 := by
  simp only [isSignChar, Bool.or_eq_true, decide_eq_true_eq] at h
  rcases h with h | h
  · exact Or.inl (charEq_toNat h)
  · exact Or.inr (charEq_toNat h)

lemma isHexChar_bounds {c : Char} (h : isHexChar c = true) :
    (48 ≤ c.val.toNat ∧ c.val.toNat ≤ 57) ∨
    (97 ≤ c.val.toNat ∧ c.val.toNat ≤ 102) ∨
    (65 ≤ c.val.toNat ∧ c.val.toNat ≤ 70) := by
  simp only [isHexChar, Bool.or_eq_true, Bool.and_eq_true, decide_eq_true_eq] at h
  rcases h with (h | ⟨h1, h2⟩) | ⟨h1, h2⟩
  · exact Or.inl (isDigit_bounds h)
  · exact Or.inr (Or.inl ⟨h1, h2⟩)
  · exact Or.inr (Or.inr ⟨h1, h2⟩)

lemma eq_dot_toNat {c : Char} (h : c = '.') : c.val.toNat = 46 := charEq_toNat h

/-- Disjointness facts between the character classes of the source
regexes, used to pin down greedy runs. -/
lemma pyWs_not_digit {c : Char} (h : pyWs c = true) : c.isDigit = false :=
  bool_eq_false_of (fun hd => by have := pyWs_bounds h; have := isDigit_bounds hd; omega)

lemma pyWs_not_unit {c : Char} (h : pyWs c = true) : isUnitChar c = false :=
  bool_eq_false_of (fun hu => by have := pyWs_bounds h; have := isUnitChar_bounds hu; omega)

lemma pyWs_not_sign {c : Char} (h : pyWs c = true) : isSignChar c = false :=
  bool_eq_false_of (fun hu => by have := pyWs_bounds h; have := isSignChar_bounds hu; omega)

lemma pyWs_not_hex {c : Char} (h : pyWs c = true) : isHexChar c = false :=
  bool_eq_false_of (fun hu => by have := pyWs_bounds h; have := isHexChar_bounds hu; omega)

lemma pyWs_ne_dot {c : Char} (h : pyWs c = true) : c ≠ '.' :=
  fun hd => by have := pyWs_bounds h; have := eq_dot_toNat hd; omega

lemma isDigit_not_ws {c : Char} (h : c.isDigit = true) : pyWs c = false :=
  bool_eq_false_of (fun hw => by have := pyWs_bounds hw; have := isDigit_bounds h; omega)

lemma isDigit_not_unit {c : Char} (h : c.isDigit = true) : isUnitChar c = false :=
  bool_eq_false_of (fun hu => by have := isDigit_bounds h; have := isUnitChar_bounds hu; omega)

lemma isDigit_not_sign {c : Char} (h : c.isDigit = true) : isSignChar c = false :=
  bool_eq_false_of (fun hu => by have := isDigit_bounds h; have := isSignChar_bounds hu; omega)

lemma isDigit_ne_dot {c : Char} (h : c.isDigit = true) : c ≠ '.' :=
  fun hd => by have := isDigit_bounds h; have := eq_dot_toNat hd; omega

lemma isUnitChar_not_ws {c : Char} (h : isUnitChar c = true) : pyWs c = false :=
  bool_eq_false_of (fun hw => by have := pyWs_bounds hw; have := isUnitChar_bounds h; omega)

lemma isUnitChar_not_digit {c : Char} (h : isUnitChar c = true) : c.isDigit = false :=
  bool_eq_false_of (fun hd => by have := isDigit_bounds hd; have := isUnitChar_bounds h; omega)

lemma isUnitChar_ne_dot {c : Char} (h : isUnitChar c = true) : c ≠ '.' :=
  fun hd => by have := isUnitChar_bounds h; have := eq_dot_toNat hd; omega

/-! ## Characterising the `_NUM_UNIT_RE` match -/

lemma firstSome_none_of {A : Type} {f : Nat → Option A} {ls : List Nat}
    (h : ∀ n ∈ ls, f n = none) : firstSome f ls = none := by
  induction ls with
  | nil => rfl
  | cons n ns ih =>
    rw [firstSome, h n (by simp)]
    exact ih (fun m hm => h m (by simp [hm]))

lemma takeWhile_of_all {p : Char → Bool} {l : List Char}
    (h : l.all p = true) : l.takeWhile p = l := by
  have := takeWhile_append_all (p := p) (a := l) [] h
  simpa using this

lemma all_of_all_drop {p : Char → Bool} {l : List Char} (n : Nat)
    (h : l.all p = true) : (l.drop n).all p = true := by
  rw [List.all_eq_true] at h ⊢
  exact fun c hc => h c (List.mem_of_mem_drop hc)

lemma take_all_of_le_takeWhile {p : Char → Bool} {l : List Char} {n : Nat}
    (h : n ≤ (l.takeWhile p).length) : (l.take n).all p = true := by
  have hpre : l.takeWhile p <+: l := List.takeWhile_prefix p
  have htake : l.take n = (l.takeWhile p).take n := by
    rcases hpre with ⟨t, ht⟩
    conv_lhs => rw [← ht]
    rw [List.take_append_of_le_length h]
  rw [htake, List.all_eq_true]
  intro c hc
  have hmem : c ∈ l.takeWhile p := List.mem_of_mem_take hc
  exact List.mem_takeWhile_imp hmem

/-- The tail `\s*$` (single-line `$`) of `_NUM_UNIT_RE`: on an all-white
remainder it consumes everything and the match ends. -/
lemma numUnit_tail_ws {prev : Option Char} {caps : Caps} {w2 : List Char}
    (h : w2.all pyWs = true) :
    match2 [.tok (.cls pyWs 0 none false), .tok .eolS] prev w2 caps mkDone
      = some (caps, []) := by
  rw [match2_tok]
  apply matchTok_cls_greedy_max (Nat.zero_le _)
  rw [takeWhile_of_all h, List.drop_length]
  rfl

/-- The optional unit group `(?:\s*([A-Za-z%/]+))?` followed by the tail,
when a unit token is present. -/
lemma numUnit_opt_unit {prev : Option Char} {caps : Caps}
    {w1 un w2 : List Char}
    (hw1 : w1.all pyWs = true) (hun : un.all isUnitChar = true)
    (hne : un ≠ []) (hw2 : w2.all pyWs = true) :
    match2 [.opt [.tok (.cls pyWs 0 none false),
                  .grp 2 [.cls isUnitChar 1 none false]],
            .tok (.cls pyWs 0 none false), .tok .eolS] prev (w1 ++ (un ++ w2))
        caps mkDone
      = some ((2, un) :: caps, []) := by
  rw [match2_opt]
  have hhead : ∀ c ∈ (un ++ w2).head?, pyWs c = false := by
    intro c hc
    cases un with
    | nil => exact absurd rfl hne
    | cons u ut =>
      simp only [List.cons_append, List.head?_cons, Option.mem_def,
        Option.some.injEq] at hc
      have hu : isUnitChar u = true := by
        have h2 := hun
        simp only [List.all_cons, Bool.and_eq_true] at h2
        exact h2.1
      exact hc ▸ isUnitChar_not_ws hu
  have hinner : match1 [.tok (.cls pyWs 0 none false),
      .grp 2 [.cls isUnitChar 1 none false]] prev (w1 ++ (un ++ w2)) caps
      (fun p2 s2 c2 =>
        match2 [.tok (.cls pyWs 0 none false), .tok .eolS] p2 s2 c2 mkDone)
      = some ((2, un) :: caps, []) := by
    rw [match1_tok]
    have hrun : ((w1 ++ (un ++ w2)).takeWhile pyWs) = w1 :=
      takeWhile_append_stop hw1 hhead
    apply matchTok_cls_greedy_max (Nat.zero_le _)
    rw [hrun, drop_length_append]
    rw [match1_grp]
    have hw2head : ∀ c ∈ w2.head?, isUnitChar c = false := by
      intro c hc
      cases w2 with
      | nil => simp at hc
      | cons d dt =>
        simp only [List.head?_cons, Option.mem_def, Option.some.injEq] at hc
        have hd2 : pyWs d = true := by
          have h2 := hw2
          simp only [List.all_cons, Bool.and_eq_true] at h2
          exact h2.1
        exact hc ▸ pyWs_not_unit hd2
    have hrun2 : ((un ++ w2).takeWhile isUnitChar) = un :=
      takeWhile_append_stop hun hw2head
    rw [matchToks_cons]
    have hlo : 1 ≤ ((un ++ w2).takeWhile isUnitChar).length := by
      rw [hrun2]
      cases un with
      | nil => exact absurd rfl hne
      | cons u ut => simp
    apply matchTok_cls_greedy_max hlo
    rw [hrun2, drop_length_append, matchToks_nil]
    have hcap : (un ++ w2).take ((un ++ w2).length - w2.length) = un := by
      have : (un ++ w2).length - w2.length = un.length := by
        simp [List.length_append]
      rw [this, List.take_append_of_le_length (le_refl _)]
      simp
    rw [match1_nil, hcap]
    exact numUnit_tail_ws hw2
  rw [hinner]

/-- The optional unit group followed by the tail, when the remainder is
all whitespace: the optional block cannot match (its unit class needs one
character) and is skipped. -/
lemma numUnit_opt_skip {prev : Option Char} {caps : Caps} {w2 : List Char}
    (hw2 : w2.all pyWs = true) :
    match2 [.opt [.tok (.cls pyWs 0 none false),
                  .grp 2 [.cls isUnitChar 1 none false]],
            .tok (.cls pyWs 0 none false), .tok .eolS] prev w2 caps mkDone
      = some (caps, []) := by
  rw [match2_opt]
  have hinner : match1 [.tok (.cls pyWs 0 none false),
      .grp 2 [.cls isUnitChar 1 none false]] prev w2 caps
      (fun p2 s2 c2 =>
        match2 [.tok (.cls pyWs 0 none false), .tok .eolS] p2 s2 c2 mkDone)
      = none := by
    rw [match1_tok, matchTok_cls]
    apply firstSome_none_of
    intro n hn
    rw [match1_grp, matchToks_cons, matchTok_cls]
    have hdrop : ((w2.drop n).takeWhile isUnitChar) = [] := by
      apply takeWhile_eq_nil_of_head
      intro c hc
      have hall := all_of_all_drop n hw2
      cases hd : w2.drop n with
      | nil => simp [hd] at hc
      | cons d dt =>
        rw [hd] at hc
        simp only [List.head?_cons, Option.mem_def, Option.some.injEq] at hc
        rw [hd, List.all_cons, Bool.and_eq_true] at hall
        exact hc ▸ pyWs_not_unit hall.1
    rw [hdrop]
    simp only [List.length_nil, Option.elim]
    rw [show lensFor 1 0 false = [] from rfl]
    rfl
  rw [hinner]
  exact numUnit_tail_ws hw2

lemma head_of_all {p : Char → Bool} {l : List Char} (h : l.all p = true) :
    ∀ c ∈ l.head?, p c = true := by
  intro c hc
  cases l with
  | nil => simp at hc
  | cons a t =>
    simp only [List.head?_cons, Option.mem_def, Option.some.injEq] at hc
    rw [List.all_cons, Bool.and_eq_true] at h
    exact hc ▸ h.1

lemma head_append3 {P : Char → Prop} {w1 un w2 : List Char}
    (h1 : ∀ c ∈ w1.head?, P c) (h2 : ∀ c ∈ un.head?, P c)
    (h3 : ∀ c ∈ w2.head?, P c) :
    ∀ c ∈ (w1 ++ (un ++ w2)).head?, P c := by
  cases w1 <;> cases un <;> cases w2 <;> simp_all

/-- One way to read a string as the source's `_NUM_UNIT_RE` pattern
`^([-+]?\d+(?:\.\d+)?)(?:\s*([A-Za-z%/]+))?\s*$`: an optional sign, a
non-empty digit run, an optional dot-plus-digits fraction, optional
whitespace followed by a unit token (the whitespace only when a unit
follows), and trailing whitespace. -/
structure NumUnitSplit (cs sg ip fr w1 un w2 : List Char) : Prop where
  eq : cs = sg ++ ip ++ fr ++ w1 ++ un ++ w2
  sgOk : sg = [] ∨ sg = ['+'] ∨ sg = ['-']
  ipNe : ip ≠ []
  ipDigits : ip.all Char.isDigit = true
  frOk : fr = [] ∨ ∃ fd, fr = '.' :: fd ∧ fd ≠ [] ∧ fd.all Char.isDigit = true
  w1Ws : w1.all pyWs = true
  unUnit : un.all isUnitChar = true
  unW1 : un = [] → w1 = []
  w2Ws : w2.all pyWs = true

def NumUnitShape (cs : List Char) : Prop :=
  ∃ sg ip fr w1 un w2, NumUnitSplit cs sg ip fr w1 un w2

/-- Digits and optional fraction of the first capture group, with the
match continuing on `rest`. -/
lemma numUnit_digits_frac {prev : Option Char} {caps : Caps} {k : MK}
    {r : Caps × List Char} {ip fr rest : List Char}
    (hip : ip ≠ []) (hipd : ip.all Char.isDigit = true)
    (hfr : fr = [] ∨ ∃ fd, fr = '.' :: fd ∧ fd ≠ [] ∧ fd.all Char.isDigit = true)
    (hrd : ∀ c ∈ rest.head?, c.isDigit = false)
    (hrdot : ∀ c ∈ rest.head?, c ≠ '.')
    (hk : ∀ p2, k p2 rest caps = some r) :
    match1 [.tok (.cls Char.isDigit 1 none false),
            .opt [.lit ['.'], .cls Char.isDigit 1 none false]]
      prev (ip ++ (fr ++ rest)) caps k = some r := by
  rw [match1_tok]
  have hfhead : ∀ c ∈ (fr ++ rest).head?, c.isDigit = false := by
    rcases hfr with rfl | ⟨fd, rfl, hfd, hfdd⟩
    · simpa using hrd
    · intro c hc
      simp only [List.cons_append, List.head?_cons, Option.mem_def,
        Option.some.injEq] at hc
      exact hc ▸ (by decide)
  have hrun : ((ip ++ (fr ++ rest)).takeWhile Char.isDigit) = ip :=
    takeWhile_append_stop hipd hfhead
  have hlo : 1 ≤ ((ip ++ (fr ++ rest)).takeWhile Char.isDigit).length := by
    rw [hrun]
    cases ip with
    | nil => exact absurd rfl hip
    | cons a t => simp
  apply matchTok_cls_greedy_max hlo
  rw [hrun, drop_length_append, match1_opt]
  rcases hfr with rfl | ⟨fd, rfl, hfd, hfdd⟩
  · have hN : ∀ p2, matchToks [.lit ['.'], .cls Char.isDigit 1 none false] p2
        ([] ++ rest) caps (fun q2 s2 c2 => match1 [] q2 s2 c2 k) = none := by
      intro p2
      rw [matchToks_cons, matchTok_lit]
      have hpre : (['.'].isPrefixOf ([] ++ rest)) = false := by
        cases rest with
        | nil => rfl
        | cons c t =>
          have hcd := hrdot c (by simp)
          simp only [List.nil_append, List.isPrefixOf, Bool.and_eq_false_iff]
          left
          simp only [beq_eq_false_iff_ne, ne_eq]
          exact fun hcc => hcd hcc.symm
      rw [hpre]
      simp
    rw [hN]
    rw [match1_nil]
    simp only [List.nil_append]
    exact hk _
  · have hS : ∀ p2, matchToks [.lit ['.'], .cls Char.isDigit 1 none false] p2
        (('.' :: fd) ++ rest) caps (fun q2 s2 c2 => match1 [] q2 s2 c2 k)
        = some r := by
      intro p2
      rw [matchToks_cons, matchTok_lit]
      have hpre : (['.'].isPrefixOf (('.' :: fd) ++ rest)) = true := by
        simp [List.isPrefixOf]
      rw [hpre]
      simp only [if_true, List.cons_append, List.drop_succ_cons, List.drop_zero]
      rw [matchToks_cons]
      have hrun2 : ((fd ++ rest).takeWhile Char.isDigit) = fd :=
        takeWhile_append_stop hfdd hrd
      have hlo2 : 1 ≤ ((fd ++ rest).takeWhile Char.isDigit).length := by
        rw [hrun2]
        cases fd with
        | nil => exact absurd rfl hfd
        | cons a t => simp
      apply matchTok_cls_greedy_max hlo2
      rw [hrun2, drop_length_append, matchToks_nil, match1_nil]
      exact hk _
    rw [hS]

/-- The full first group `([-+]?\d+(?:\.\d+)?)` body: sign, digits,
fraction, continuing on `rest`. -/
lemma numUnit_group1 {prev : Option Char} {caps : Caps} {k : MK}
    {r : Caps × List Char} {sg ip fr rest : List Char}
    (hsg : sg = [] ∨ sg = ['+'] ∨ sg = ['-'])
    (hip : ip ≠ []) (hipd : ip.all Char.isDigit = true)
    (hfr : fr = [] ∨ ∃ fd, fr = '.' :: fd ∧ fd ≠ [] ∧ fd.all Char.isDigit = true)
    (hrd : ∀ c ∈ rest.head?, c.isDigit = false)
    (hrdot : ∀ c ∈ rest.head?, c ≠ '.')
    (hk : ∀ p2, k p2 rest caps = some r) :
    match1 [.tok (.cls isSignChar 0 (some 1) false),
            .tok (.cls Char.isDigit 1 none false),
            .opt [.lit ['.'], .cls Char.isDigit 1 none false]]
      prev (sg ++ (ip ++ (fr ++ rest))) caps k = some r := by
  have hiphead : ∀ c ∈ (ip ++ (fr ++ rest)).head?, isSignChar c = false := by
    intro c hc
    cases ip with
    | nil => exact absurd rfl hip
    | cons a t =>
      simp only [List.cons_append, List.head?_cons, Option.mem_def,
        Option.some.injEq] at hc
      rw [List.all_cons, Bool.and_eq_true] at hipd
      exact hc ▸ isDigit_not_sign hipd.1
  rw [match1_tok, matchTok_cls]
  rcases hsg with rfl | rfl | rfl
  · have hrun : (([] ++ (ip ++ (fr ++ rest))).takeWhile isSignChar) = [] := by
      simp only [List.nil_append]
      exact takeWhile_eq_nil_of_head hiphead
    rw [hrun]
    simp only [List.length_nil, Option.elim, Nat.min_zero, Nat.zero_min]
    rw [show lensFor 0 0 false = [0] from rfl]
    apply firstSome_head_some
    simp only [List.take_zero, List.drop_zero, List.nil_append]
    exact numUnit_digits_frac hip hipd hfr hrd hrdot hk
  · have hrun : ((['+'] ++ (ip ++ (fr ++ rest))).takeWhile isSignChar) = ['+'] :=
      takeWhile_append_stop (by decide) hiphead
    rw [hrun]
    simp only [List.length_singleton, Option.elim]
    rw [show min 1 1 = 1 from rfl, show lensFor 0 1 false = [1, 0] from rfl]
    apply firstSome_head_some
    simp only [List.singleton_append, List.drop_succ_cons, List.drop_zero]
    exact numUnit_digits_frac hip hipd hfr hrd hrdot hk
  · have hrun : ((['-'] ++ (ip ++ (fr ++ rest))).takeWhile isSignChar) = ['-'] :=
      takeWhile_append_stop (by decide) hiphead
    rw [hrun]
    simp only [List.length_singleton, Option.elim]
    rw [show min 1 1 = 1 from rfl, show lensFor 0 1 false = [1, 0] from rfl]
    apply firstSome_head_some
    simp only [List.singleton_append, List.drop_succ_cons, List.drop_zero]
    exact numUnit_digits_frac hip hipd hfr hrd hrdot hk

/-- Direction one of the `_NUM_UNIT_RE` characterisation: every
`NumUnitSplit` reading of a string is matched by the engine, with group 1
capturing sign+digits+fraction and group 2 the unit token when present. -/
theorem numUnit_match_of_split {cs sg ip fr w1 un w2 : List Char}
    (h : NumUnitSplit cs sg ip fr w1 un w2) :
    matchHere numUnitRe none cs =
      some (if un = [] then [(1, sg ++ ip ++ fr)]
            else [(2, un), (1, sg ++ ip ++ fr)], []) := by
  obtain ⟨heq, hsg, hip, hipd, hfr, hw1, hun, hunw1, hw2⟩ := h
  subst heq
  unfold matchHere numUnitRe
  rw [match2_grp]
  have hre : sg ++ ip ++ fr ++ w1 ++ un ++ w2
      = sg ++ (ip ++ (fr ++ (w1 ++ (un ++ w2)))) := by
    simp [List.append_assoc]
  rw [hre]
  apply numUnit_group1 hsg hip hipd hfr
  · exact head_append3
      (fun c hc => pyWs_not_digit (head_of_all hw1 c hc))
      (fun c hc => isUnitChar_not_digit (head_of_all hun c hc))
      (fun c hc => pyWs_not_digit (head_of_all hw2 c hc))
  · exact head_append3
      (fun c hc => pyWs_ne_dot (head_of_all hw1 c hc))
      (fun c hc => isUnitChar_ne_dot (head_of_all hun c hc))
      (fun c hc => pyWs_ne_dot (head_of_all hw2 c hc))
  · intro p2
    have hcap : (sg ++ (ip ++ (fr ++ (w1 ++ (un ++ w2))))).take
        ((sg ++ (ip ++ (fr ++ (w1 ++ (un ++ w2))))).length
          - (w1 ++ (un ++ w2)).length) = sg ++ ip ++ fr := by
      have hassoc : sg ++ (ip ++ (fr ++ (w1 ++ (un ++ w2))))
          = (sg ++ ip ++ fr) ++ (w1 ++ (un ++ w2)) := by
        simp [List.append_assoc]
      rw [hassoc]
      have hlen : ((sg ++ ip ++ fr) ++ (w1 ++ (un ++ w2))).length
          - (w1 ++ (un ++ w2)).length = (sg ++ ip ++ fr).length := by
        simp only [List.length_append]
        omega
      rw [hlen, take_length_append]
    rw [hcap]
    by_cases hu : un = []
    · subst hu
      have hw1e := hunw1 rfl
      subst hw1e
      simp only [List.nil_append, if_true]
      exact numUnit_opt_skip hw2
    · rw [if_neg hu]
      exact numUnit_opt_unit hw1 hun hu hw2

/-! ## `_NUM_UNIT_RE`: inversion direction -/

lemma matchTok_lit_some {cs : List Char} {prev s caps} {k : MK}
    {r : Caps × List Char} (h : matchTok (.lit cs) prev s caps k = some r) :
    cs.isPrefixOf s = true ∧
      k (prevOf cs prev) (s.drop cs.length) caps = some r := by
  rw [matchTok_lit] at h
  by_cases hp : cs.isPrefixOf s
  · exact ⟨hp, by rwa [if_pos hp] at h⟩
  · rw [if_neg hp] at h
    exact absurd h (by simp)

lemma matchTok_eolS_some {prev s caps} {k : MK} {r : Caps × List Char}
    (h : matchTok .eolS prev s caps k = some r) :
    (s = [] ∨ s = ['\n']) ∧ k prev s caps = some r := by
  rw [matchTok_eolS] at h
  by_cases hp : eolSOk s = true
  · constructor
    · simpa [eolSOk] using hp
    · rwa [if_pos hp] at h
  · rw [if_neg hp] at h
    exact absurd h (by simp)

lemma match2_opt_some {inner : List R1} {rest : List R2} {prev s caps}
    {k : MK} {r : Caps × List Char}
    (h : match2 (.opt inner :: rest) prev s caps k = some r) :
    match1 inner prev s caps (fun p2 s2 c2 => match2 rest p2 s2 c2 k) = some r
    ∨ match2 rest prev s caps k = some r := by
  rw [match2_opt] at h
  cases hE : match1 inner prev s caps
      (fun p2 s2 c2 => match2 rest p2 s2 c2 k) with
  | none =>
    rw [hE] at h
    exact Or.inr h
  | some v =>
    rw [hE] at h
    left
    exact h

lemma match1_opt_some {inner : List RTok} {rest : List R1} {prev s caps}
    {k : MK} {r : Caps × List Char}
    (h : match1 (.opt inner :: rest) prev s caps k = some r) :
    matchToks inner prev s caps (fun p2 s2 c2 => match1 rest p2 s2 c2 k) = some r
    ∨ match1 rest prev s caps k = some r := by
  rw [match1_opt] at h
  cases hE : matchToks inner prev s caps
      (fun p2 s2 c2 => match1 rest p2 s2 c2 k) with
  | none =>
    rw [hE] at h
    exact Or.inr h
  | some v =>
    rw [hE] at h
    left
    exact h

/-- Inversion of the `\s*$` tail: the remainder is all whitespace and the
captures are unchanged. -/
lemma numUnit_tail_inv {prev : Option Char} {caps caps2 : Caps}
    {s s2 : List Char}
    (h : match2 [.tok (.cls pyWs 0 none false), .tok .eolS] prev s caps mkDone
      = some (caps2, s2)) :
    s.all pyWs = true ∧ caps2 = caps := by
  rw [match2_tok] at h
  rcases matchTok_cls_some h with ⟨n, _, hle, _, hk⟩
  rw [match2_tok] at hk
  rcases matchTok_eolS_some hk with ⟨hend, hk2⟩
  rw [match2_nil] at hk2
  simp only [mkDone, Option.some.injEq, Prod.mk.injEq] at hk2
  refine ⟨?_, hk2.1.symm⟩
  have htk : (s.take n).all pyWs = true := take_all_of_le_takeWhile hle
  have hdr : (s.drop n).all pyWs = true := by
    rcases hend with he | he <;> rw [he] <;> decide
  rw [← List.take_append_drop n s, List.all_append, htk, hdr]
  rfl

/-- Inversion of the optional unit block plus tail. -/
lemma numUnit_opt_inv {prev : Option Char} {caps caps2 : Caps}
    {s s2 : List Char}
    (h : match2 [.opt [.tok (.cls pyWs 0 none false),
                       .grp 2 [.cls isUnitChar 1 none false]],
                 .tok (.cls pyWs 0 none false), .tok .eolS] prev s caps mkDone
      = some (caps2, s2)) :
    ∃ w1 un w2, s = w1 ++ (un ++ w2) ∧ w1.all pyWs = true ∧
      un.all isUnitChar = true ∧ (un = [] → w1 = []) ∧ w2.all pyWs = true := by
  rcases match2_opt_some h with hin | hskip
  · rw [match1_tok] at hin
    rcases matchTok_cls_some hin with ⟨n, _, hle, _, hk⟩
    rw [match1_grp, matchToks_cons] at hk
    rcases matchTok_cls_some hk with ⟨m, hm1, hmle, _, hk2⟩
    rw [matchToks_nil, match1_nil] at hk2
    have htail := numUnit_tail_inv hk2
    refine ⟨s.take n, (s.drop n).take m, (s.drop n).drop m, ?_, ?_, ?_, ?_, ?_⟩
    · rw [List.take_append_drop, List.take_append_drop]
    · exact take_all_of_le_takeWhile hle
    · exact take_all_of_le_takeWhile hmle
    · intro hu
      exfalso
      have : ((s.drop n).take m).length = 0 := by rw [hu]; rfl
      rw [List.length_take] at this
      have hlen : m ≤ (s.drop n).length :=
        le_trans hmle (List.takeWhile_prefix _).length_le
      omega
    · exact htail.1
  · have := numUnit_tail_inv hskip
    exact ⟨[], [], s, by simp, rfl, rfl, fun _ => rfl, this.1⟩

lemma sign_shape {l : List Char} (hall : l.all isSignChar = true)
    (hlen : l.length ≤ 1) : l = [] ∨ l = ['+'] ∨ l = ['-'] := by
  cases l with
  | nil => exact Or.inl rfl
  | cons c t =>
    cases t with
    | nil =>
      rw [List.all_cons, Bool.and_eq_true] at hall
      have := hall.1
      simp only [isSignChar, Bool.or_eq_true, decide_eq_true_eq] at this
      rcases this with rfl | rfl
      · exact Or.inr (Or.inl rfl)
      · exact Or.inr (Or.inr rfl)
    | cons d u => simp at hlen

/-- Inversion of the first capture group: the input splits into sign,
digits, fraction and a remainder on which the continuation succeeded with
unchanged captures. -/
lemma numUnit_group1_inv {prev : Option Char} {caps : Caps} {k : MK}
    {r : Caps × List Char} {s : List Char}
    (h : match1 [.tok (.cls isSignChar 0 (some 1) false),
                 .tok (.cls Char.isDigit 1 none false),
                 .opt [.lit ['.'], .cls Char.isDigit 1 none false]]
      prev s caps k = some r) :
    ∃ sg ip fr rest, s = sg ++ (ip ++ (fr ++ rest)) ∧
      (sg = [] ∨ sg = ['+'] ∨ sg = ['-']) ∧ ip ≠ [] ∧
      ip.all Char.isDigit = true ∧
      (fr = [] ∨ ∃ fd, fr = '.' :: fd ∧ fd ≠ [] ∧ fd.all Char.isDigit = true) ∧
      ∃ p2, k p2 rest caps = some r := by
  rw [match1_tok] at h
  rcases matchTok_cls_some h with ⟨n0, _, h0le, h0hi, hk0⟩
  rw [match1_tok] at hk0
  rcases matchTok_cls_some hk0 with ⟨n1, h1lo, h1le, _, hk1⟩
  have hsg : s.take n0 = [] ∨ s.take n0 = ['+'] ∨ s.take n0 = ['-'] := by
    apply sign_shape (take_all_of_le_takeWhile h0le)
    rw [List.length_take]
    have := h0hi 1 rfl
    omega
  have hip : (s.drop n0).take n1 ≠ [] := by
    intro hu
    have : ((s.drop n0).take n1).length = 0 := by rw [hu]; rfl
    rw [List.length_take] at this
    have hlen : n1 ≤ (s.drop n0).length :=
      le_trans h1le (List.takeWhile_prefix _).length_le
    omega
  have hipd : ((s.drop n0).take n1).all Char.isDigit = true :=
    take_all_of_le_takeWhile h1le
  rcases match1_opt_some hk1 with hin | hskip
  · rw [matchToks_cons] at hin
    rcases matchTok_lit_some hin with ⟨hpre, hk2⟩
    rcases List.isPrefixOf_iff_prefix.mp hpre with ⟨t, ht⟩
    rw [matchToks_cons] at hk2
    rcases matchTok_cls_some hk2 with ⟨n2, h2lo, h2le, _, hk3⟩
    rw [matchToks_nil, match1_nil] at hk3
    set u := (s.drop n0).drop n1 with hu
    have hfd : (u.drop 1).take n2 ≠ [] := by
      intro hz
      have : ((u.drop 1).take n2).length = 0 := by rw [hz]; rfl
      rw [List.length_take] at this
      have hlen : n2 ≤ (u.drop 1).length :=
        le_trans h2le (List.takeWhile_prefix _).length_le
      omega
    have hfdd : ((u.drop 1).take n2).all Char.isDigit = true :=
      take_all_of_le_takeWhile h2le
    refine ⟨s.take n0, (s.drop n0).take n1,
      '.' :: ((u.drop 1).take n2), (u.drop 1).drop n2, ?_, hsg, hip, hipd,
      Or.inr ⟨_, rfl, hfd, hfdd⟩, ?_⟩
    · have hu1 : u = '.' :: t := by rw [← ht]; rfl
      have : ('.' : Char) :: ((u.drop 1).take n2 ++ (u.drop 1).drop n2)
          = u := by
        rw [List.take_append_drop, hu1]
        rfl
      rw [List.cons_append, this, hu]
      rw [List.take_append_drop, List.take_append_drop]
    · have hdrop1 : u.drop ['.'].length = u.drop 1 := rfl
      rw [hdrop1] at hk3
      exact ⟨_, hk3⟩
  · rw [match1_nil] at hskip
    exact ⟨s.take n0, (s.drop n0).take n1, [], (s.drop n0).drop n1,
      by rw [List.nil_append, List.take_append_drop, List.take_append_drop],
      hsg, hip, hipd, Or.inl rfl, _, hskip⟩

/-- Direction two of the `_NUM_UNIT_RE` characterisation: a successful
match yields a `NumUnitSplit` reading. -/
theorem numUnit_split_of_match {cs : List Char} {caps : Caps} {s2 : List Char}
    (h : matchHere numUnitRe none cs = some (caps, s2)) : NumUnitShape cs := by
  unfold matchHere numUnitRe at h
  rw [match2_grp] at h
  rcases numUnit_group1_inv h with ⟨sg, ip, fr, rest, heq, hsg, hip, hipd, hfr, p2, hk⟩
  rcases numUnit_opt_inv hk with ⟨w1, un, w2, hre, hw1, hun, hunw1, hw2⟩
  refine ⟨sg, ip, fr, w1, un, w2, ?_⟩
  exact { eq := by rw [heq, hre]; simp [List.append_assoc]
          sgOk := hsg
          ipNe := hip
          ipDigits := hipd
          frOk := hfr
          w1Ws := hw1
          unUnit := hun
          unW1 := hunw1
          w2Ws := hw2 }

/-! ## Values of matched numbers, and the C6 claim -/

/-- The exact numeric value denoted by a sign/digits/fraction split. -/
def numValQ (sg ip fr : List Char) : ℚ :=
  (if sg = ['-'] then -1 else 1) *
    ((digitsValN ip : ℚ) +
      (if fr = [] then 0
       else (digitsValN (fr.drop 1) : ℚ) / ((10 : ℚ) ^ (fr.drop 1).length)))

/-- `float(m.group(1))` computes exactly the split's value. -/
lemma pyFloatBody_eval {a : Char} {t fr : List Char} (sgn : ℚ)
    (hipd : (a :: t).all Char.isDigit = true)
    (hfr : fr = [] ∨ ∃ fd, fr = '.' :: fd ∧ fd ≠ [] ∧ fd.all Char.isDigit = true) :
    pyFloatBody sgn ((a :: t) ++ fr)
      = some (sgn * ((digitsValN (a :: t) : ℚ) +
          (if fr = [] then 0
           else (digitsValN (fr.drop 1) : ℚ) / ((10 : ℚ) ^ (fr.drop 1).length)))) := by
  have hfhead : ∀ c ∈ fr.head?, c.isDigit = false := by
    rcases hfr with rfl | ⟨fd, rfl, hfd, hfdd⟩
    · simp
    · intro c hc
      simp only [List.head?_cons, Option.mem_def, Option.some.injEq] at hc
      exact hc ▸ (by decide)
  have hrun : (((a :: t) ++ fr).takeWhile Char.isDigit) = a :: t :=
    takeWhile_append_stop hipd hfhead
  unfold pyFloatBody
  rw [hrun, drop_length_append]
  rcases hfr with rfl | ⟨fd, rfl, hfd, hfdd⟩
  · simp
  · show (if ('.' : Char) = '.' ∧ fd.all Char.isDigit = true
        ∧ ((a :: t) ≠ [] ∨ fd ≠ []) then
      some (sgn * ((digitsValN (a :: t) : ℚ)
        + (digitsValN fd : ℚ) / ((10 : ℚ) ^ fd.length)))
    else none) = _
    rw [if_pos ⟨rfl, hfdd, Or.inl (by simp)⟩]
    simp

lemma pyFloatQ_of_split {sg ip fr : List Char}
    (hsg : sg = [] ∨ sg = ['+'] ∨ sg = ['-'])
    (hip : ip ≠ []) (hipd : ip.all Char.isDigit = true)
    (hfr : fr = [] ∨ ∃ fd, fr = '.' :: fd ∧ fd ≠ [] ∧ fd.all Char.isDigit = true) :
    pyFloatQ (sg ++ ip ++ fr) = some (numValQ sg ip fr) := by
  obtain ⟨a, t, rfl⟩ : ∃ a t, ip = a :: t := by
    cases ip with
    | nil => exact absurd rfl hip
    | cons a t => exact ⟨a, t, rfl⟩
  have had : a.isDigit = true := by
    rw [List.all_cons, Bool.and_eq_true] at hipd
    exact hipd.1
  have hminus : ¬ (a = '-') := by
    intro ha
    have h1 := isDigit_bounds had
    have h2 := charEq_toNat ha
    have h3 : ('-').val.toNat = 45 := rfl
    omega
  have hplus : ¬ (a = '+') := by
    intro ha
    have h1 := isDigit_bounds had
    have h2 := charEq_toNat ha
    have h3 : ('+').val.toNat = 43 := rfl
    omega
  rcases hsg with rfl | rfl | rfl
  · rw [List.nil_append]
    unfold pyFloatQ
    have hh : ((a :: t) ++ fr).head? = some a := rfl
    rw [hh]
    rw [if_neg (fun hx => hminus (Option.some.inj hx))]
    rw [if_neg (by
      intro hor
      rcases hor with hx | hx
      · exact hminus (Option.some.inj hx)
      · exact hplus (Option.some.inj hx))]
    rw [pyFloatBody_eval 1 hipd hfr]
    unfold numValQ
    rw [if_neg (show ¬(([] : List Char) = ['-']) by decide)]
  · have hcs : (['+'] ++ (a :: t)) ++ fr = '+' :: ((a :: t) ++ fr) := rfl
    rw [hcs]
    unfold pyFloatQ
    have hh : ('+' :: ((a :: t) ++ fr)).head? = some '+' := rfl
    rw [hh]
    rw [if_neg (fun hx => absurd (Option.some.inj hx) (by decide))]
    rw [if_pos (Or.inr rfl)]
    show pyFloatBody 1 ((a :: t) ++ fr) = _
    rw [pyFloatBody_eval 1 hipd hfr]
    unfold numValQ
    rw [if_neg (show ¬((['+'] : List Char) = ['-']) by decide)]
  · have hcs : (['-'] ++ (a :: t)) ++ fr = '-' :: ((a :: t) ++ fr) := rfl
    rw [hcs]
    unfold pyFloatQ
    have hh : ('-' :: ((a :: t) ++ fr)).head? = some '-' := rfl
    rw [hh]
    rw [if_pos rfl, if_pos (Or.inl rfl)]
    show pyFloatBody (-1) ((a :: t) ++ fr) = _
    rw [pyFloatBody_eval (-1) hipd hfr]
    unfold numValQ
    rw [if_pos (show (['-'] : List Char) = ['-'] from rfl)]

lemma charOfNat_toNat {n : Nat} (h1 : n < 0xd800) : (Char.ofNat n).toNat = n := by
  unfold Char.ofNat Char.toNat
  rw [dif_pos]
  · rfl
  · exact Or.inl h1

lemma pyLowerChar_idem (c : Char) : pyLowerChar (pyLowerChar c) = pyLowerChar c := by
  unfold pyLowerChar
  by_cases h : ('A' ≤ c && c ≤ 'Z') = true
  · rw [if_pos h]
    simp only [Bool.and_eq_true, decide_eq_true_eq] at h
    have ha := charLe_toNat h.1
    have hb := charLe_toNat h.2
    have haA : ('A').val.toNat = 65 := rfl
    have haZ : ('Z').val.toNat = 90 := rfl
    have hval : (Char.ofNat (c.toNat + 32)).toNat = c.toNat + 32 :=
      charOfNat_toNat (by
        show c.toNat + 32 < 55296
        have : c.toNat = c.val.toNat := rfl
        omega)
    rw [if_neg]
    intro hcond
    simp only [Bool.and_eq_true, decide_eq_true_eq] at hcond
    have h2 := charLe_toNat hcond.2
    have : (Char.ofNat (c.toNat + 32)).val.toNat = c.toNat + 32 := hval
    have h3 : c.toNat = c.val.toNat := rfl
    omega
  · rw [if_neg h, if_neg h]

lemma pyLower_mk_map (l : List Char) :
    pyLower (String.mk (l.map pyLowerChar)) = String.mk (l.map pyLowerChar) := by
  unfold pyLower
  rw [toList_mk, List.map_map]
  congr 1
  apply List.map_congr_left
  intro c _
  exact pyLowerChar_idem c

lemma mem_dictUpsert {V : Type} {m : List (String × V)} {k : String} {v : V}
    {kv : String × V} (h : kv ∈ dictUpsert m k v) : kv ∈ m ∨ kv = (k, v) := by
  unfold dictUpsert at h
  by_cases hc : m.any (fun x => x.1 == k) = true
  · rw [if_pos hc] at h
    rcases List.mem_map.mp h with ⟨x, hx, hxe⟩
    by_cases hk : (x.1 == k) = true
    · rw [if_pos hk] at hxe
      exact Or.inr hxe.symm
    · rw [if_neg hk] at hxe
      exact Or.inl (hxe ▸ hx)
  · rw [if_neg hc] at h
    rcases List.mem_append.mp h with hx | hx
    · exact Or.inl hx
    · exact Or.inr (by simpa using hx)

/-- The per-entry property asserted by claim C6. -/
def GetAllEntryProp (k : String) (e : GetAllValue) : Prop :=
  pyLower k = k ∧
  (e.value.isSome = true ↔ NumUnitShape e.raw.toList) ∧
  (∀ sg ip fr w1 un w2, NumUnitSplit e.raw.toList sg ip fr w1 un w2 →
    e.value = some (pyNumOf (numValQ sg ip fr)) ∧
    e.unit = (if un = [] then none else some (String.mk un))) ∧
  (e.value = none → e.unit = none)

lemma getallEntry_ok {rawL : List Char} {e : GetAllValue}
    (h : getallEntry rawL = Except.ok e) :
    e.raw = String.mk rawL ∧
    (e.value.isSome = true ↔ NumUnitShape rawL) ∧
    (∀ sg ip fr w1 un w2, NumUnitSplit rawL sg ip fr w1 un w2 →
      e.value = some (pyNumOf (numValQ sg ip fr)) ∧
      e.unit = (if un = [] then none else some (String.mk un))) ∧
    (e.value = none → e.unit = none) := by
  unfold getallEntry at h
  cases hm : matchHere numUnitRe none rawL with
  | none =>
    rw [hm] at h
    have he : e = { raw := String.mk rawL } := by
      injection h with h2
      exact h2.symm
    subst he
    refine ⟨rfl, ?_, ?_, fun _ => rfl⟩
    · constructor
      · intro hv
        simp at hv
      · intro hshape
        rcases hshape with ⟨sg, ip, fr, w1, un, w2, hsplit⟩
        have := numUnit_match_of_split hsplit
        rw [hm] at this
        exact absurd this (by simp)
    · intro sg ip fr w1 un w2 hsplit
      have := numUnit_match_of_split hsplit
      rw [hm] at this
      exact absurd this (by simp)
  | some pr =>
    rcases pr with ⟨caps, srem⟩
    rw [hm] at h
    have hshape : NumUnitShape rawL := numUnit_split_of_match hm
    rcases hshape with ⟨sg, ip, fr, w1, un, w2, hsplit⟩
    have hbuild := numUnit_match_of_split hsplit
    rw [hm] at hbuild
    have hcaps : caps = (if un = [] then [(1, sg ++ ip ++ fr)]
        else [(2, un), (1, sg ++ ip ++ fr)]) := by
      injection hbuild with hb
      injection hb.symm with hb1 hb2
      exact hb1.symm
    have hcap1 : (capGet caps 1).getD [] = sg ++ ip ++ fr := by
      rw [hcaps]
      by_cases hu : un = [] <;> simp [hu, capGet, List.find?]
    have hfloat : pyFloatQ ((capGet caps 1).getD [])
        = some (numValQ sg ip fr) := by
      rw [hcap1]
      exact pyFloatQ_of_split hsplit.sgOk hsplit.ipNe hsplit.ipDigits hsplit.frOk
    replace h : (match pyFloatQ ((capGet caps 1).getD []) with
        | none => (throw () : Except Unit GetAllValue)
        | some q =>
          pure { raw := String.mk rawL, value := some (pyNumOf q),
                 unit := (match capGet caps 2 with
                   | some us => if us = [] then none else some (String.mk us)
                   | none => none) }) = Except.ok e := h
    rw [hfloat] at h
    have hunit2 : (match capGet caps 2 with
        | some us => if us = [] then none else some (String.mk us)
        | none => none)
        = (if un = [] then none else some (String.mk un)) := by
      rw [hcaps]
      by_cases hu : un = []
      · simp [hu, capGet, List.find?]
      · simp only [if_neg hu, capGet, List.find?]
        simp [hu]
    replace h : Except.ok (GetAllValue.mk (String.mk rawL)
        (some (pyNumOf (numValQ sg ip fr)))
        (match capGet caps 2 with
          | some us => if us = [] then none else some (String.mk us)
          | none => none)) = Except.ok e := h
    rw [hunit2] at h
    have he : e = GetAllValue.mk (String.mk rawL)
        (some (pyNumOf (numValQ sg ip fr)))
        (if un = [] then none else some (String.mk un)) := by
      injection h with h2
      exact h2.symm
    subst he
    refine ⟨rfl, ?_, ?_, ?_⟩
    · simp only [Option.isSome_some, true_iff]
      exact ⟨sg, ip, fr, w1, un, w2, hsplit⟩
    · intro sg2 ip2 fr2 w12 un2 w22 hsplit2
      have hb2 := numUnit_match_of_split hsplit2
      rw [hm] at hb2
      have hpair := hbuild.symm.trans hb2
      injection hpair with hp
      injection hp with hc1 hc2
      constructor
      · have hg : (capGet caps 1).getD [] = sg2 ++ ip2 ++ fr2 := by
          rw [hcaps, hc1]
          by_cases hu : un2 = [] <;> simp [hu, capGet, List.find?]
        have hg2 := hg.symm.trans hcap1
        have hfl2 := pyFloatQ_of_split hsplit2.sgOk hsplit2.ipNe
          hsplit2.ipDigits hsplit2.frOk
        rw [hg2] at hfl2
        rw [pyFloatQ_of_split hsplit.sgOk hsplit.ipNe hsplit.ipDigits
          hsplit.frOk] at hfl2
        have hv : numValQ sg2 ip2 fr2 = numValQ sg ip fr := by
          injection hfl2 with hv2
          exact hv2.symm
        simp only [GetAllValue.value]
        rw [hv]
      · have hu2 : (if un = [] then ([(1, sg ++ ip ++ fr)] : Caps)
            else [(2, un), (1, sg ++ ip ++ fr)])
            = (if un2 = [] then [(1, sg2 ++ ip2 ++ fr2)]
               else [(2, un2), (1, sg2 ++ ip2 ++ fr2)]) := hc1
        by_cases ha : un = [] <;> by_cases hb : un2 = []
        · simp [ha, hb]
        · rw [if_pos ha, if_neg hb] at hu2
          injection hu2 with hx hy
          injection hx with hx1 hx2
          exact absurd hx1 (by decide)
        · rw [if_neg ha, if_pos hb] at hu2
          injection hu2 with hx hy
          injection hx with hx1 hx2
          exact absurd hx1 (by decide)
        · rw [if_neg ha, if_neg hb] at hu2
          injection hu2 with hx hy
          injection hx with hx1 hx2
          rw [if_neg ha, if_neg hb, hx2]
    · intro hv
      simp at hv

lemma getallLine_prop {out : List (String × GetAllValue)} {line : List Char}
    {out2 : List (String × GetAllValue)}
    (hstep : getallLine out line = Except.ok out2)
    (hout : ∀ kv ∈ out, GetAllEntryProp kv.1 kv.2) :
    ∀ kv ∈ out2, GetAllEntryProp kv.1 kv.2 := by
  unfold getallLine at hstep
  by_cases h1 : (pyStripL line = [] || pyStripL line = "msh >".toList) = true
  · rw [if_pos h1] at hstep
    have : out = out2 := by injection hstep
    exact this ▸ hout
  · rw [if_neg h1] at hstep
    by_cases h2 : (!(getallStripped line).contains ':') = true
    · rw [if_pos h2] at hstep
      have : out = out2 := by injection hstep
      exact this ▸ hout
    · rw [if_neg h2] at hstep
      cases he : getallEntry (getallRaw line) with
      | error e2 =>
        rw [he] at hstep
        exact absurd hstep (by simp)
      | ok entry =>
        rw [he] at hstep
        have hout2 : out2 = dictUpsert out (getallKey line) entry := by
          injection hstep with hs2
          exact hs2.symm
        subst hout2
        intro kv hkv
        rcases mem_dictUpsert hkv with hold | rfl
        · exact hout kv hold
        · rcases getallEntry_ok he with ⟨hraw, hiff, hsplits, hnone⟩
          refine ⟨pyLower_mk_map _, ?_, ?_, hnone⟩
          · rw [hraw, toList_mk]
            exact hiff
          · intro sg ip fr w1 un w2 hsplit
            rw [hraw, toList_mk] at hsplit
            exact hsplits sg ip fr w1 un w2 hsplit

lemma getall_fold_prop {lines : List (List Char)}
    {out out2 : List (String × GetAllValue)}
    (h : lines.foldlM getallLine out = Except.ok out2)
    (hout : ∀ kv ∈ out, GetAllEntryProp kv.1 kv.2) :
    ∀ kv ∈ out2, GetAllEntryProp kv.1 kv.2 := by
  induction lines generalizing out with
  | nil =>
    simp only [List.foldlM_nil] at h
    have : out = out2 := by injection h
    exact this ▸ hout
  | cons l ls ih =>
    rw [List.foldlM_cons] at h
    cases hstep : getallLine out l with
    | error e =>
      rw [hstep] at h
      exact Except.noConfusion h
    | ok out1 =>
      rw [hstep] at h
      exact ih h (getallLine_prop hstep hout)

deriving instance DecidableEq for Except

/-- Claim C6.  For every input text, every entry produced by the getall
parser has a lowercase key; its `value` field is present iff the stripped
raw value matches `^[-+]?\d+(\.\d+)?(\s*[A-Za-z%/]+)?\s*$` (read here as
the existence of a `NumUnitSplit` decomposition), in which case the value
is the denoted number stored as an int when integral and a float
otherwise, and its `unit` field is present iff a unit token follows the
number; non-matching lines keep only `raw`. -/
theorem C6_getall_entries (t : String) (l : List (String × GetAllValue))
    (k : String) (e : GetAllValue)
    (hok : parse_getall_block t = Except.ok l) (hmem : (k, e) ∈ l) :
    pyLower k = k
    ∧ (e.value.isSome = true ↔ NumUnitShape e.raw.toList)
    ∧ (∀ sg ip fr w1 un w2, NumUnitSplit e.raw.toList sg ip fr w1 un w2 →
        e.value = some (pyNumOf (numValQ sg ip fr))
        ∧ e.unit = (if un = [] then none else some (String.mk un)))
    ∧ (e.value = none → e.unit = none) :=
  getall_fold_prop hok (by simp) (k, e) hmem

set_option maxRecDepth 4000 in
/-- Witness for C6 at the concrete line ".MAXPOWER: 700 W". -/
theorem C6_getall_entries_witness :
    parse_getall_block ".MAXPOWER: 700 W"
      = Except.ok [("maxpower",
          GetAllValue.mk "700 W" (some (PyNum.int 700)) (some "W"))]
    ∧ pyLower "maxpower" = "maxpower" :=
  ⟨by with_unfolding_all decide,
   (C6_getall_entries ".MAXPOWER: 700 W"
      [("maxpower", GetAllValue.mk "700 W" (some (PyNum.int 700)) (some "W"))]
      "maxpower" (GetAllValue.mk "700 W" (some (PyNum.int 700)) (some "W"))
      (by with_unfolding_all decide) (by decide)).1⟩

/-! ## 4.3 Status parser (`parse_status.py`)

The typed schema: a sparse record of optional fields.  Python floats are
exact rationals; the `env` trio uses `PyFloat` because the source puts
`float("nan")` in missing components. -/

inductive PyFloat where
  | nan
  | val (q : ℚ)
deriving DecidableEq, Repr

structure PowerOut where
  pct : ℚ
  w : ℤ
  dac : ℤ
  state : String
deriving DecidableEq, Repr

structure PowerParam where
  power : ℚ
  pwm_fre : ℤ
  pwm_duty : ℤ
deriving DecidableEq, Repr

structure PowerDrive where
  v : ℚ
  a : ℚ
deriving DecidableEq, Repr

structure EnergyState where
  state : ℤ
  j : ℤ
  dac : ℤ
deriving DecidableEq, Repr

structure PilotState where
  ma : ℚ
  adc : ℤ
  dac : ℤ
  onoff : String
  mode : ℤ
deriving DecidableEq, Repr

structure PdVoltage where
  mv : ℚ
  adc : ℤ
deriving DecidableEq, Repr

structure NtcReading where
  c : ℚ
  adc : ℤ
deriving DecidableEq, Repr

structure ScalarAdc where
  value : ℚ
  adc : ℤ
deriving DecidableEq, Repr

structure EnvSummary where
  temp_c : PyFloat
  pres_kpa : PyFloat
  dew : PyFloat
deriving DecidableEq, Repr

structure MaskText where
  mask : String
  text : String
deriving DecidableEq, Repr

structure StatusParsed where
  power_on_time : Option String := none
  rtc_time : Option String := none
  work_mode : Option String := none
  work_state : Option String := none
  laser_state : Option String := none
  pulse_on : Option ℤ := none
  pulse_off : Option ℤ := none
  wave_state : Option ℤ := none
  io_flags : Option (List (String × ℤ)) := none
  power_out : Option PowerOut := none
  power_param : Option PowerParam := none
  power_drive : Option PowerDrive := none
  drive_volt : Option (List ℚ) := none
  drive_current : Option (List ℚ) := none
  energy : Option EnergyState := none
  pilot : Option PilotState := none
  pd : Option PdVoltage := none
  ntc : Option (List NtcReading) := none
  pressure : Option ScalarAdc := none
  air_hr : Option ScalarAdc := none
  air_t : Option ScalarAdc := none
  env : Option EnvSummary := none
  warning : Option MaskText := none
  error : Option MaskText := none
  lock : Option MaskText := none
  tem : Option ℤ := none
deriving DecidableEq, Repr

/-! Character classes of the status regexes. -/

def reDot (c : Char) : Bool :=
  c ≠ '\n'

def isDigitDot (c : Char) : Bool :=
  c.isDigit || c = '.'

def isWordChar (c : Char) : Bool :=
  c.isAlphanum || c = '_'

def isIoChar (c : Char) : Bool :=
  ('A' ≤ c && c ≤ 'Z') || c.isDigit || c = '_'

/-! The patterns, in source order.  `wsS`/`wsP` stand for `\s*`/`\s+`,
`dotP` for `(.+)`, `dotS` for `(.*)`, all under `re.MULTILINE`. -/

def wsS : RTok := .cls pyWs 0 none false
def wsP : RTok := .cls pyWs 1 none false
def digP : RTok := .cls Char.isDigit 1 none false
def ddP : RTok := .cls isDigitDot 1 none false

/-- The group `([-+]?\d+(?:\.\d+)?)`. -/
def signedFloatG : List R1 :=
  [.tok (.cls isSignChar 0 (some 1) false), .tok digP,
   .opt [.lit ['.'], digP]]

/-- `^<name>\s*(.+)$` for the remainder-of-line string fields. -/
def lineTail (name : String) : List R2 :=
  [.tok .bol, .tok (.lit name.toList), .tok wsS,
   .grp 1 [.tok (.cls reDot 1 none false)], .tok .eolM]

/-- `^<name>\s*(\d+)\s*(?:[A-Za-z]+)?\s*$` for `pulse_on`/`pulse_off`. -/
def pulseRe (name : String) : List R2 :=
  [.tok .bol, .tok (.lit name.toList), .tok wsS, .grp 1 [.tok digP],
   .tok wsS, .opt [.tok (.cls Char.isAlpha 1 none false)], .tok wsS,
   .tok .eolM]

/-- `^wave\s+state:\s*(\d+)\s*$`. -/
def waveRe : List R2 :=
  [.tok .bol, .tok (.lit "wave".toList), .tok wsP,
   .tok (.lit "state:".toList), .tok wsS, .grp 1 [.tok digP], .tok wsS,
   .tok .eolM]

/-- `([A-Z0-9_]+)\((\d+)\)` (findall over the IO state line). -/
def ioFlagRe : List R2 :=
  [.grp 1 [.tok (.cls isIoChar 1 none false)], .tok (.lit ['(']),
   .grp 2 [.tok digP], .tok (.lit [')'])]

/-- `^Power Out:\s*([0-9.]+)%.*?\(\s*([0-9]+)\s*w\),DAC\((\d+)\),state\((\w+)\)\s*$`. -/
def powerOutRe : List R2 :=
  [.tok .bol, .tok (.lit "Power Out:".toList), .tok wsS, .grp 1 [.tok ddP],
   .tok (.lit ['%']), .tok (.cls reDot 0 none true), .tok (.lit ['(']),
   .tok wsS, .grp 2 [.tok digP], .tok wsS, .tok (.lit "w),DAC(".toList),
   .grp 3 [.tok digP], .tok (.lit "),state(".toList),
   .grp 4 [.tok (.cls isWordChar 1 none false)], .tok (.lit [')']),
   .tok wsS, .tok .eolM]

/-- `^Power Param:\s*power\(([-+]?\d+(?:\.\d+)?)\),pwm_fre\((\d+)\),pwm_duty\((\d+)\)\s*$`. -/
def powerParamRe : List R2 :=
  [.tok .bol, .tok (.lit "Power Param:".toList), .tok wsS,
   .tok (.lit "power(".toList), .grp 1 signedFloatG,
   .tok (.lit "),pwm_fre(".toList), .grp 2 [.tok digP],
   .tok (.lit "),pwm_duty(".toList), .grp 3 [.tok digP],
   .tok (.lit [')']), .tok wsS, .tok .eolM]

/-- `^Power drive:\s*([-+]?\d+(?:\.\d+)?)\s*V,\s*([-+]?\d+(?:\.\d+)?)\s*A\s*$`. -/
def powerDriveRe : List R2 :=
  [.tok .bol, .tok (.lit "Power drive:".toList), .tok wsS,
   .grp 1 signedFloatG, .tok wsS, .tok (.lit "V,".toList), .tok wsS,
   .grp 2 signedFloatG, .tok wsS, .tok (.lit ['A']), .tok wsS, .tok .eolM]

/-- `[-+]?\d+(?:\.\d+)?` (findall for the drive volt/current lines). -/
def floatFindRe : List R2 :=
  [.tok (.cls isSignChar 0 (some 1) false), .tok digP,
   .opt [.tok (.lit ['.']), .tok digP]]

/-- `^Energy:\s*state\((\d+)\),\((\d+)\s*J\),DAC\((\d+)\)\s*$`. -/
def energyRe : List R2 :=
  [.tok .bol, .tok (.lit "Energy:".toList), .tok wsS,
   .tok (.lit "state(".toList), .grp 1 [.tok digP],
   .tok (.lit "),(".toList), .grp 2 [.tok digP], .tok wsS,
   .tok (.lit "J),DAC(".toList), .grp 3 [.tok digP], .tok (.lit [')']),
   .tok wsS, .tok .eolM]

/-- `^Pilot State:\s*([0-9.]+)mA,ADC\((\d+)\),\s*DAC\((\d+)\),\s*\((\w+)\),\s*mode\((\d+)\)\s*$`. -/
def pilotRe : List R2 :=
  [.tok .bol, .tok (.lit "Pilot State:".toList), .tok wsS,
   .grp 1 [.tok ddP], .tok (.lit "mA,ADC(".toList), .grp 2 [.tok digP],
   .tok (.lit "),".toList), .tok wsS, .tok (.lit "DAC(".toList),
   .grp 3 [.tok digP], .tok (.lit "),".toList), .tok wsS,
   .tok (.lit ['(']), .grp 4 [.tok (.cls isWordChar 1 none false)],
   .tok (.lit "),".toList), .tok wsS, .tok (.lit "mode(".toList),
   .grp 5 [.tok digP], .tok (.lit [')']), .tok wsS, .tok .eolM]

/-- `^PD Voltage:\s*([0-9.]+)mV,ADC\((\d+)\)\s*$`. -/
def pdRe : List R2 :=
  [.tok .bol, .tok (.lit "PD Voltage:".toList), .tok wsS, .grp 1 [.tok ddP],
   .tok (.lit "mV,ADC(".toList), .grp 2 [.tok digP], .tok (.lit [')']),
   .tok wsS, .tok .eolM]

/-- `([-+]?\d+(?:\.\d+)?)C,ADC\((\d+)\)` (findall over the NTC lines). -/
def ntcPairRe : List R2 :=
  [.grp 1 signedFloatG, .tok (.lit "C,ADC(".toList), .grp 2 [.tok digP],
   .tok (.lit [')'])]

/-- `^<name>\s*([0-9.]+)<suffix>,ADC\((\d+)\)\s*$` scaffolding for the
`Pressure:`/`AirHR:`/`AirT:` lines (`AirHR` has an optional `%`). -/
def scalarAdcRe (name : String) (optPct : Bool) (suffix : String) : List R2 :=
  [.tok .bol, .tok (.lit name.toList), .tok wsS, .grp 1 [.tok ddP]] ++
  (if optPct then [R2.opt [.tok (.lit ['%'])]] else []) ++
  [.tok (.lit (suffix.toList ++ ",ADC(".toList)), .grp 2 [.tok digP],
   .tok (.lit [')']), .tok wsS, .tok .eolM]

/-- `^Temp:\s*([0-9.]+)\s*C\s*Pres:\s*([0-9.]+)\s*KPa\s*$`. -/
def tempPresRe : List R2 :=
  [.tok .bol, .tok (.lit "Temp:".toList), .tok wsS, .grp 1 [.tok ddP],
   .tok wsS, .tok (.lit ['C']), .tok wsS, .tok (.lit "Pres:".toList),
   .tok wsS, .grp 2 [.tok ddP], .tok wsS, .tok (.lit "KPa".toList),
   .tok wsS, .tok .eolM]

/-- `^Dew:\s*([0-9.]+)\s*$`. -/
def dewRe : List R2 :=
  [.tok .bol, .tok (.lit "Dew:".toList), .tok wsS, .grp 1 [.tok ddP],
   .tok wsS, .tok .eolM]

/-- `^<name>\((0x[0-9A-Fa-f]+)\):\s*(.+)\s*$` for `WARNING(`/`ERROR(`
(with `lo2 = 1` for `(.+)`) and `^LOCK\((0x...)\):\s*(.*)\s*$`
(`lo2 = 0` for `(.*)`). -/
def maskTextRe (name : String) (lo2 : Nat) : List R2 :=
  [.tok .bol, .tok (.lit name.toList),
   .grp 1 [.tok (.lit ['0', 'x']), .tok (.cls isHexChar 1 none false)],
   .tok (.lit [')', ':']), .tok wsS,
   .grp 2 [.tok (.cls reDot lo2 none false)], .tok wsS, .tok .eolM]

def warnRe : List R2 := maskTextRe "WARNING(" 1
def errRe : List R2 := maskTextRe "ERROR(" 1
def lockRe : List R2 := maskTextRe "LOCK(" 0

/-- `^TEM:(\d+)\s*$`. -/
def temRe : List R2 :=
  [.tok .bol, .tok (.lit "TEM:".toList), .grp 1 [.tok digP], .tok wsS,
   .tok .eolM]

/-! ### The field extractors

Each mirrors one `m = RE.search(t)` / `if m:` block of
`parse_status_block`.  Groups that feed `float(...)` go through `pyFloatE`
(raising `ValueError` becomes `Except.error ()`); `int(...)` on a `\d+`
group cannot fail and is `digitsValN`. -/

def pyFloatE (cs : List Char) : Except Unit ℚ :=
  match pyFloatQ cs with
  | some q => .ok q
  | none => .error ()

def intOfDigits (cs : List Char) : ℤ :=
  (digitsValN cs : ℤ)

def grpOf (caps : Caps) (i : Nat) : List Char :=
  (capGet caps i).getD []

def find1 (re : List R2) (t : List Char) : Option (List Char) :=
  (reSearch re t).bind (fun x => capGet x.2.1 1)

def statusLineTail (name : String) (t : List Char) : Option String :=
  (find1 (lineTail name) t).map String.mk

def statusPulse (name : String) (t : List Char) : Option ℤ :=
  (find1 (pulseRe name) t).map intOfDigits

def statusWave (t : List Char) : Option ℤ :=
  (find1 waveRe t).map intOfDigits

def statusIoFlags (t : List Char) : Option (List (String × ℤ)) :=
  (find1 (lineTail "IO state:") t).map (fun v =>
    (reFindAll ioFlagRe v).foldl
      (fun m x => dictUpsert m (String.mk (grpOf x.2 1))
        (intOfDigits (grpOf x.2 2))) [])

def statusPowerOut (t : List Char) : Except Unit (Option PowerOut) :=
  match reSearch powerOutRe t with
  | none => .ok none
  | some x => do
      let pct ← pyFloatE (grpOf x.2.1 1)
      .ok (some ⟨pct, intOfDigits (grpOf x.2.1 2), intOfDigits (grpOf x.2.1 3),
        String.mk (grpOf x.2.1 4)⟩)

def statusPowerParam (t : List Char) : Except Unit (Option PowerParam) :=
  match reSearch powerParamRe t with
  | none => .ok none
  | some x => do
      let p ← pyFloatE (grpOf x.2.1 1)
      .ok (some ⟨p, intOfDigits (grpOf x.2.1 2), intOfDigits (grpOf x.2.1 3)⟩)

def statusPowerDrive (t : List Char) : Except Unit (Option PowerDrive) :=
  match reSearch powerDriveRe t with
  | none => .ok none
  | some x => do
      let v ← pyFloatE (grpOf x.2.1 1)
      let a ← pyFloatE (grpOf x.2.1 2)
      .ok (some ⟨v, a⟩)

def statusFloatList (name : String) (keep : Nat) (t : List Char) :
    Except Unit (Option (List ℚ)) :=
  match find1 (lineTail name) t with
  | none => .ok none
  | some v => do
      let qs ← (reFindAll floatFindRe v).mapM (fun x => pyFloatE x.1)
      .ok (some (qs.take keep))

def statusEnergy (t : List Char) : Option EnergyState :=
  (reSearch energyRe t).map (fun x =>
    ⟨intOfDigits (grpOf x.2.1 1), intOfDigits (grpOf x.2.1 2),
     intOfDigits (grpOf x.2.1 3)⟩)

def statusPilot (t : List Char) : Except Unit (Option PilotState) :=
  match reSearch pilotRe t with
  | none => .ok none
  | some x => do
      let ma ← pyFloatE (grpOf x.2.1 1)
      .ok (some ⟨ma, intOfDigits (grpOf x.2.1 2), intOfDigits (grpOf x.2.1 3),
        String.mk (grpOf x.2.1 4), intOfDigits (grpOf x.2.1 5)⟩)

def statusPd (t : List Char) : Except Unit (Option PdVoltage) :=
  match reSearch pdRe t with
  | none => .ok none
  | some x => do
      let mv ← pyFloatE (grpOf x.2.1 1)
      .ok (some ⟨mv, intOfDigits (grpOf x.2.1 2)⟩)

def ntcPairsOf (v : List Char) : Except Unit (List NtcReading) :=
  (reFindAll ntcPairRe v).mapM (fun x => do
    let c ← pyFloatE (grpOf x.2 1)
    .ok (⟨c, intOfDigits (grpOf x.2 2)⟩ : NtcReading))

def statusNtc (t : List Char) : Except Unit (Option (List NtcReading)) := do
  let a ← match find1 (lineTail "NTC1~4:") t with
    | none => .ok []
    | some v => ntcPairsOf v
  let b ← match find1 (lineTail "NTC5~8:") t with
    | none => .ok []
    | some v => ntcPairsOf v
  .ok (if a ++ b = [] then none else some (a ++ b))

def statusScalarAdc (name : String) (optPct : Bool) (suffix : String)
    (t : List Char) : Except Unit (Option ScalarAdc) :=
  match reSearch (scalarAdcRe name optPct suffix) t with
  | none => .ok none
  | some x => do
      let q ← pyFloatE (grpOf x.2.1 1)
      .ok (some ⟨q, intOfDigits (grpOf x.2.1 2)⟩)

def statusEnv (t : List Char) : Except Unit (Option EnvSummary) :=
  match reSearch tempPresRe t, find1 dewRe t with
  | none, none => .ok none
  | m, dew => do
      let tc : PyFloat ← match m with
        | some x => (pyFloatE (grpOf x.2.1 1)).map PyFloat.val
        | none => .ok PyFloat.nan
      let pk : PyFloat ← match m with
        | some x => (pyFloatE (grpOf x.2.1 2)).map PyFloat.val
        | none => .ok PyFloat.nan
      let dw : PyFloat ← match dew with
        | some v => (pyFloatE v).map PyFloat.val
        | none => .ok PyFloat.nan
      .ok (some ⟨tc, pk, dw⟩)

def statusMaskText (re : List R2) (t : List Char) : Option MaskText :=
  (reSearch re t).map (fun x =>
    ⟨String.mk (grpOf x.2.1 1), String.mk (pyStripL (grpOf x.2.1 2))⟩)

def statusTem (t : List Char) : Option ℤ :=
  (find1 temRe t).map intOfDigits

/-- Assemble the record from the fallible components; the pure fields are
recomputed here directly from the text. -/
def statusAssemble (t : List Char) (power_out : Option PowerOut)
    (power_param : Option PowerParam) (power_drive : Option PowerDrive)
    (drive_volt drive_current : Option (List ℚ)) (pilot : Option PilotState)
    (pd : Option PdVoltage) (ntc : Option (List NtcReading))
    (pressure air_hr air_t : Option ScalarAdc) (env : Option EnvSummary) :
    StatusParsed :=
  { power_on_time := statusLineTail "Power-ON time:" t
    rtc_time := statusLineTail "RTC time:" t
    work_mode := statusLineTail "Work Mode:" t
    work_state := statusLineTail "Work State:" t
    laser_state := statusLineTail "laser State:" t
    pulse_on := statusPulse "pulse_on:" t
    pulse_off := statusPulse "pulse_off:" t
    wave_state := statusWave t
    io_flags := statusIoFlags t
    power_out := power_out
    power_param := power_param
    power_drive := power_drive
    drive_volt := drive_volt
    drive_current := drive_current
    energy := statusEnergy t
    pilot := pilot
    pd := pd
    ntc := ntc
    pressure := pressure
    air_hr := air_hr
    air_t := air_t
    env := env
    warning := statusMaskText warnRe t
    error := statusMaskText errRe t
    lock := statusMaskText lockRe t
    tem := statusTem t }

/-- `parse_status_block`: strip `\r`, then run every matcher; the fallible
ones are sequenced in the source's evaluation order, so the first
`float(...)` failure aborts the whole parse with `ValueError`. -/
def parse_status_block (text : String) : Except Unit StatusParsed := do
  let t := text.toList.filter (fun c => c ≠ '\r')
  let power_out ← statusPowerOut t
  let power_param ← statusPowerParam t
  let power_drive ← statusPowerDrive t
  let drive_volt ← statusFloatList "Drive volt1~2:" 2 t
  let drive_current ← statusFloatList "Drive current1~4:" 4 t
  let pilot ← statusPilot t
  let pd ← statusPd t
  let ntc ← statusNtc t
  let pressure ← statusScalarAdc "Pressure:" false "" t
  let air_hr ← statusScalarAdc "AirHR:" true "" t
  let air_t ← statusScalarAdc "AirT:" false "C" t
  let env ← statusEnv t
  .ok (statusAssemble t power_out power_param power_drive drive_volt
    drive_current pilot pd ntc pressure air_hr air_t env)

/-- **C7.** The claim says `env` is emitted whenever at least one of the
trio is present, with missing components set to NaN.  The happy paths do
behave that way (second, third and fourth conjuncts), but the claim's
universal form is broken by a hard failure: `[0-9.]+` matches `1..2`,
which `float(...)` then rejects, so `parse_status_block` raises
`ValueError` instead of emitting `env` — a code bug (the spec asserts the
parser has no hard failure). -/
theorem C7_env_trio_bug :
    parse_status_block "Temp: 1..2 C  Pres: 1 KPa" = .error () ∧
    parse_status_block "Temp: 25.0 C  Pres: 100.0 KPa" =
      .ok { env := some ⟨.val 25, .val 100, .nan⟩ } ∧
    parse_status_block "Dew: 3.5" =
      .ok { env := some ⟨.nan, .nan, .val (7 / 2)⟩ } ∧
    parse_status_block "" = .ok {} := by
  refine ⟨?_, ?_, ?_, ?_⟩ <;> with_unfolding_all decide

/-! ## 4.4 The WARNING/ERROR/LOCK characterisation

Scaffolding: more unfolding and list lemmas for the mask/text patterns. -/

lemma matchTok_bol (prev s caps) (k : MK) :
    matchTok .bol prev s caps k = if bolOk prev then k prev s caps else none := rfl

lemma matchTok_lit_build (cs b : List Char) (prev caps) (k : MK) :
    matchTok (.lit cs) prev (cs ++ b) caps k = k (prevOf cs prev) b caps := by
  rw [matchTok_lit,
    if_pos (show cs.isPrefixOf (cs ++ b) = true from
      List.isPrefixOf_iff_prefix.mpr (List.prefix_append cs b)),
    drop_length_append]

lemma take_sub_length (a b : List Char) :
    (a ++ b).take ((a ++ b).length - b.length) = a := by
  have h : (a ++ b).length - b.length = a.length := by
    simp only [List.length_append]
    omega
  rw [h, take_length_append]

lemma all_takeWhile_self (p : Char → Bool) (l : List Char) :
    (l.takeWhile p).all p = true := by
  induction l with
  | nil => rfl
  | cons c t ih => by_cases hc : p c <;> simp [List.takeWhile_cons, hc, ih]

lemma all_dropWhile_of_all {p q : Char → Bool} {l : List Char}
    (h : l.all p = true) : (l.dropWhile q).all p = true := by
  induction l with
  | nil => rfl
  | cons c t ih =>
    simp only [List.all_cons, Bool.and_eq_true] at h
    by_cases hc : q c
    · simp only [List.dropWhile_cons, hc, if_true]
      exact ih h.2
    · simp [List.dropWhile_cons, hc, List.all_cons, h.1, h.2]

lemma head_dropWhile_not {p : Char → Bool} {l : List Char} :
    ∀ c ∈ (l.dropWhile p).head?, p c = false := by
  induction l with
  | nil => simp
  | cons a t ih =>
    by_cases ha : p a
    · simpa [List.dropWhile_cons, ha] using ih
    · intro c hc
      have hd : (a :: t).dropWhile p = a :: t := by
        simp [List.dropWhile_cons, ha]
      rw [hd] at hc
      simp only [List.head?_cons, Option.mem_def, Option.some.injEq] at hc
      simp only [Bool.not_eq_true] at ha
      exact hc ▸ ha

lemma prevOf_cons (c : Char) (a1 : List Char) (prev : Option Char) :
    prevOf (c :: a1) prev = prevOf a1 (some c) := by
  cases a1 with
  | nil => rfl
  | cons d t =>
    obtain ⟨e, he⟩ := Option.isSome_iff_exists.mp
      (List.getLast?_isSome.mpr (by simp : (d :: t) ≠ []))
    unfold prevOf
    rw [List.getLast?_cons_cons, he]

lemma zero_mem_lensFor (top : Nat) : 0 ∈ lensFor 0 top false := by
  unfold lensFor
  rw [if_neg (by omega)]
  simp only [Bool.false_eq_true, if_false, List.mem_map, List.mem_range]
  exact ⟨top, by omega, by omega⟩

lemma firstSome_eq_some_of_ex {A : Type} {f : Nat → Option A} {ls : List Nat}
    (h : ∃ n ∈ ls, (f n).isSome = true) :
    ∃ m ∈ ls, firstSome f ls = f m ∧ (f m).isSome = true := by
  induction ls with
  | nil => simp at h
  | cons n ns ih =>
    cases hf : f n with
    | some v => exact ⟨n, by simp, by simp [firstSome, hf], by simp [hf]⟩
    | none =>
      rcases h with ⟨m, hm, hms⟩
      rcases List.mem_cons.mp hm with rfl | hm2
      · rw [hf] at hms
        simp at hms
      · rcases ih ⟨m, hm2, hms⟩ with ⟨m2, hm2m, heq, hs⟩
        exact ⟨m2, by simp [hm2m], by simp [firstSome, hf, heq], hs⟩

lemma eolM_done (prev : Option Char) (s : List Char) (caps : Caps) :
    matchTok RTok.eolM prev s caps (fun p2 s2 c2 => match2 [] p2 s2 c2 mkDone)
      = if eolMOk s then some (caps, s) else none := rfl

/-- The trailing `\s*$` of the mask/text patterns succeeds whenever the
remaining input is empty or starts a new line, with the captures untouched;
the consumed amount (hence the final suffix) depends on backtracking but
not on the previous character. -/
lemma tailWsEol {caps : Caps} {rest : List Char}
    (hrest : rest = [] ∨ rest.head? = some '\n') :
    ∃ s2, ∀ prev, match2 [R2.tok wsS, R2.tok .eolM] prev rest caps mkDone
      = some (caps, s2) := by
  have heol : eolMOk rest = true := by
    rcases hrest with rfl | hh
    · rfl
    · cases rest with
      | nil => rfl
      | cons c t =>
        simp only [List.head?_cons, Option.some.injEq] at hh
        simp [eolMOk, hh]
  simp only [match2_tok, matchTok_cls, eolM_done, wsS, Option.elim]
  have hex : ∃ n ∈ lensFor 0 (rest.takeWhile pyWs).length false,
      ((fun n => if eolMOk (rest.drop n) then some (caps, rest.drop n)
        else none) n).isSome = true := by
    refine ⟨0, zero_mem_lensFor _, ?_⟩
    simp [heol]
  rcases firstSome_eq_some_of_ex hex with ⟨m, hm, heq, hs⟩
  by_cases hme : eolMOk (rest.drop m)
  · refine ⟨rest.drop m, fun prev => ?_⟩
    rw [heq]
    simp [hme]
  · rw [if_neg (by simpa using hme)] at hs
    simp at hs

/-- A mask/text pattern can only match at the beginning of a line whose
text starts with the pattern name. -/
lemma maskText_fail {nm : String} {lo2 : Nat} {p : Option Char} {u : List Char}
    (h : bolOk p = false ∨ nm.toList.isPrefixOf u = false) :
    matchHere (maskTextRe nm lo2) p u = none := by
  unfold matchHere maskTextRe
  rw [match2_tok, matchTok_bol]
  rcases h with h | h
  · simp [h]
  · by_cases hb : bolOk p
    · rw [if_pos hb, match2_tok, matchTok_lit, h]
      simp
    · simp [hb]

/-- The mask/text pattern matches at the start of a line
`<name>0x<mask>):<body><rest>` when the mask is non-empty hex, the body has
no newline and at least one non-whitespace character, and the rest is empty
or starts a new line; group 1 captures `0x<mask>` and group 2 the body with
its leading whitespace removed. -/
lemma maskText_match_here {nm : String} {lo2 : Nat} {p0 : Option Char}
    {mask body rest : List Char}
    (hbol : bolOk p0 = true)
    (hmaskne : mask ≠ []) (hmaskhex : mask.all isHexChar = true)
    (hbody : body.all reDot = true)
    (hbtail : body.dropWhile pyWs ≠ [])
    (hlo2 : lo2 ≤ 1)
    (hrest : rest = [] ∨ rest.head? = some '\n') :
    ∃ s2, matchHere (maskTextRe nm lo2) p0
      (nm.toList ++ ('0' :: 'x' :: (mask ++ (')' :: ':' :: (body ++ rest)))))
      = some ([(2, body.dropWhile pyWs), (1, '0' :: 'x' :: mask)], s2) := by
  obtain ⟨s2, hs2⟩ :=
    @tailWsEol [(2, body.dropWhile pyWs), (1, '0' :: 'x' :: mask)] rest hrest
  refine ⟨s2, ?_⟩
  unfold matchHere maskTextRe
  rw [match2_tok, matchTok_bol, if_pos hbol, match2_tok, matchTok_lit_build,
    match2_grp, match1_tok]
  rw [show ('0' :: 'x' :: (mask ++ (')' :: ':' :: (body ++ rest))))
      = ['0', 'x'] ++ (mask ++ (')' :: ':' :: (body ++ rest))) from rfl,
    matchTok_lit_build, match1_tok]
  have hrun : ((mask ++ (')' :: ':' :: (body ++ rest))).takeWhile isHexChar)
      = mask := by
    apply takeWhile_append_stop hmaskhex
    intro c hc
    simp only [List.head?_cons, Option.mem_def, Option.some.injEq] at hc
    exact hc ▸ (by decide)
  have hlo : 1 ≤ ((mask ++ (')' :: ':' :: (body ++ rest))).takeWhile
      isHexChar).length := by
    rw [hrun]
    cases mask with
    | nil => exact absurd rfl hmaskne
    | cons a t => simp
  apply matchTok_cls_greedy_max hlo
  rw [hrun, drop_length_append, match1_nil]
  have hcap1 : (['0', 'x'] ++ (mask ++ (')' :: ':' :: (body ++ rest)))).take
      ((['0', 'x'] ++ (mask ++ (')' :: ':' :: (body ++ rest)))).length
        - (')' :: ':' :: (body ++ rest)).length) = '0' :: 'x' :: mask := by
    rw [show (['0', 'x'] ++ (mask ++ (')' :: ':' :: (body ++ rest))))
        = (('0' :: 'x' :: mask) ++ (')' :: ':' :: (body ++ rest))) by simp,
      take_sub_length]
  rw [hcap1]
  rw [match2_tok]
  rw [show (')' :: ':' :: (body ++ rest)) = [')', ':'] ++ (body ++ rest)
      from rfl, matchTok_lit_build, match2_tok]
  have hbsplit : body ++ rest
      = body.takeWhile pyWs ++ (body.dropWhile pyWs ++ rest) := by
    rw [← List.append_assoc, List.takeWhile_append_dropWhile]
  rw [hbsplit]
  have hwsrun : ((body.takeWhile pyWs ++ (body.dropWhile pyWs ++ rest)
      ).takeWhile pyWs) = body.takeWhile pyWs := by
    apply takeWhile_append_stop (all_takeWhile_self pyWs body)
    intro c hc
    cases hbt : body.dropWhile pyWs with
    | nil => exact absurd hbt hbtail
    | cons b0 t0 =>
      rw [hbt] at hc
      simp only [List.cons_append, List.head?_cons, Option.mem_def,
        Option.some.injEq] at hc
      have := head_dropWhile_not (p := pyWs) (l := body)
      rw [hbt] at this
      exact hc ▸ this b0 (by simp)
  apply matchTok_cls_greedy_max (by omega)
  rw [hwsrun, drop_length_append, match2_grp, match1_tok]
  have hrun2 : ((body.dropWhile pyWs ++ rest).takeWhile reDot)
      = body.dropWhile pyWs := by
    apply takeWhile_append_stop (all_dropWhile_of_all hbody)
    intro c hc
    rcases hrest with rfl | hh
    · simp at hc
    · cases rest with
      | nil => simp at hc
      | cons r0 t0 =>
        simp only [List.head?_cons, Option.mem_def, Option.some.injEq] at hh hc
        rw [← hc, hh]
        decide
  have hlo2' : lo2 ≤ ((body.dropWhile pyWs ++ rest).takeWhile reDot).length := by
    rw [hrun2]
    cases hbt : body.dropWhile pyWs with
    | nil => exact absurd hbt hbtail
    | cons b0 t0 => simp; omega
  apply matchTok_cls_greedy_max hlo2'
  rw [hrun2, drop_length_append, match1_nil]
  have hcap2 : (body.dropWhile pyWs ++ rest).take
      ((body.dropWhile pyWs ++ rest).length - rest.length)
      = body.dropWhile pyWs := take_sub_length _ _
  rw [hcap2]
  exact hs2 _

/-- At the end of input, `(.*)\\s*$` captures the empty string. -/
lemma grp2_empty_tail (p : Option Char) (caps : Caps) (i : Nat) :
    match2 [R2.grp i [R1.tok (.cls reDot 0 none false)], R2.tok wsS,
      R2.tok RTok.eolM] p [] caps mkDone = some ((i, []) :: caps, []) := rfl

/-- The all-whitespace-body variant for `LOCK` at the end of input: the
text group captures the empty string. -/
lemma maskText_match_here_empty {nm : String} {p0 : Option Char}
    {mask body : List Char}
    (hbol : bolOk p0 = true)
    (hmaskne : mask ≠ []) (hmaskhex : mask.all isHexChar = true)
    (hbodyws : body.all pyWs = true) :
    matchHere (maskTextRe nm 0) p0
      (nm.toList ++ ('0' :: 'x' :: (mask ++ (')' :: ':' :: body))))
      = some ([(2, []), (1, '0' :: 'x' :: mask)], []) := by
  unfold matchHere maskTextRe
  rw [match2_tok, matchTok_bol, if_pos hbol, match2_tok, matchTok_lit_build,
    match2_grp, match1_tok]
  rw [show ('0' :: 'x' :: (mask ++ (')' :: ':' :: body)))
      = ['0', 'x'] ++ (mask ++ (')' :: ':' :: body)) from rfl,
    matchTok_lit_build, match1_tok]
  have hrun : ((mask ++ (')' :: ':' :: body)).takeWhile isHexChar) = mask := by
    apply takeWhile_append_stop hmaskhex
    intro c hc
    simp only [List.head?_cons, Option.mem_def, Option.some.injEq] at hc
    exact hc ▸ (by decide)
  have hlo : 1 ≤ ((mask ++ (')' :: ':' :: body)).takeWhile isHexChar).length := by
    rw [hrun]
    cases mask with
    | nil => exact absurd rfl hmaskne
    | cons a t => simp
  apply matchTok_cls_greedy_max hlo
  rw [hrun, drop_length_append, match1_nil]
  have hcap1 : (['0', 'x'] ++ (mask ++ (')' :: ':' :: body))).take
      ((['0', 'x'] ++ (mask ++ (')' :: ':' :: body))).length
        - (')' :: ':' :: body).length) = '0' :: 'x' :: mask := by
    rw [show (['0', 'x'] ++ (mask ++ (')' :: ':' :: body)))
        = (('0' :: 'x' :: mask) ++ (')' :: ':' :: body)) by simp,
      take_sub_length]
  rw [hcap1, match2_tok]
  rw [show (')' :: ':' :: body) = [')', ':'] ++ body from rfl,
    matchTok_lit_build, match2_tok]
  have hwsrun : (body.takeWhile pyWs) = body := takeWhile_of_all hbodyws
  apply matchTok_cls_greedy_max (by omega)
  rw [hwsrun, List.drop_length]
  exact grp2_empty_tail _ _ _

lemma searchStep_some {xs : List R2} {prev : Option Char} {s : List Char}
    {rec : Option (List Char × Caps × List Char)} {caps : Caps} {s2 : List Char}
    (h : matchHere xs prev s = some (caps, s2)) :
    searchStep xs prev s rec = some (s, caps, s2) := by
  unfold searchStep
  rw [h]

lemma searchStep_none {xs : List R2} {prev : Option Char} {s : List Char}
    {rec : Option (List Char × Caps × List Char)}
    (h : matchHere xs prev s = none) : searchStep xs prev s rec = rec := by
  unfold searchStep
  rw [h]

lemma searchAux_cons (xs : List R2) (prev : Option Char) (c : Char)
    (rest : List Char) :
    searchAux xs prev (c :: rest)
      = searchStep xs prev (c :: rest) (searchAux xs (some c) rest) := rfl

lemma searchAux_here {xs : List R2} {prev : Option Char} {s : List Char}
    {caps : Caps} {s2 : List Char}
    (h : matchHere xs prev s = some (caps, s2)) :
    searchAux xs prev s = some (s, caps, s2) := by
  cases s with
  | nil =>
    rw [show searchAux xs prev [] = searchStep xs prev [] none from rfl,
      searchStep_some h]
  | cons c rest =>
    rw [searchAux_cons, searchStep_some h]

/-- No-earlier-match hypothesis for the scan: at no strict line-start
position inside `pre` does the text continue with `nm`. -/
def noEarlierStart (nm : String) (pre tailp : List Char) : Prop :=
  ∀ n ∈ List.range pre.length, bolOk (prevOf (pre.take n) none) = true →
    nm.toList.isPrefixOf (pre.drop n ++ tailp) = false

instance (nm : String) (pre tailp : List Char) :
    Decidable (noEarlierStart nm pre tailp) := by
  unfold noEarlierStart
  infer_instance

/-- Scanning skips over a prefix in which the pattern cannot start. -/
lemma searchAux_skip {nm : String} {lo2 : Nat} :
    ∀ (a : List Char) (prev : Option Char) (u : List Char),
    (∀ a1 a2, a = a1 ++ a2 → a2 ≠ [] → bolOk (prevOf a1 prev) = true →
      nm.toList.isPrefixOf (a2 ++ u) = false) →
    searchAux (maskTextRe nm lo2) prev (a ++ u)
      = searchAux (maskTextRe nm lo2) (prevOf a prev) u := by
  intro a
  induction a with
  | nil =>
    intro prev u _
    rfl
  | cons c a2 ih =>
    intro prev u h
    have hnone : matchHere (maskTextRe nm lo2) prev ((c :: a2) ++ u) = none := by
      by_cases hb : bolOk prev
      · exact maskText_fail (Or.inr (h [] (c :: a2) rfl (by simp) hb))
      · exact maskText_fail (Or.inl (by simpa using hb))
    rw [show ((c :: a2) ++ u) = c :: (a2 ++ u) from rfl] at hnone ⊢
    rw [searchAux_cons, searchStep_none hnone, prevOf_cons]
    exact ih (some c) u (fun a1 b2 heq hne hbol =>
      h (c :: a1) b2 (by rw [heq]; rfl) hne (by rwa [prevOf_cons]))

/-- `re.search` of a mask/text pattern over
`pre ++ <name>0x<mask>):<body><rest>`: group 1 is `0x<mask>`, group 2 the
body without leading whitespace. -/
lemma reSearch_maskText {nm : String} {lo2 : Nat} {pre mask body rest : List Char}
    (hpre : pre = [] ∨ pre.getLast? = some '\n')
    (hno : noEarlierStart nm pre
      (nm.toList ++ ('0' :: 'x' :: (mask ++ (')' :: ':' :: (body ++ rest))))))
    (hmaskne : mask ≠ []) (hmaskhex : mask.all isHexChar = true)
    (hbody : body.all reDot = true)
    (hbtail : body.dropWhile pyWs ≠ [])
    (hlo2 : lo2 ≤ 1)
    (hrest : rest = [] ∨ rest.head? = some '\n') :
    ∃ u s2, reSearch (maskTextRe nm lo2)
      (pre ++ (nm.toList ++ ('0' :: 'x' :: (mask ++ (')' :: ':' :: (body ++ rest))))))
      = some (u, [(2, body.dropWhile pyWs), (1, '0' :: 'x' :: mask)], s2) := by
  have hbol : bolOk (prevOf pre none) = true := by
    rcases hpre with rfl | hl
    · rfl
    · unfold prevOf
      rw [hl]
      simp [bolOk]
  obtain ⟨s2, hs2⟩ := @maskText_match_here nm lo2 (prevOf pre none)
    mask body rest hbol hmaskne hmaskhex hbody hbtail hlo2 hrest
  refine ⟨nm.toList ++ ('0' :: 'x' :: (mask ++ (')' :: ':' :: (body ++ rest)))),
    s2, ?_⟩
  unfold reSearch
  rw [searchAux_skip pre none _ ?hskip, searchAux_here hs2]
  case hskip =>
    intro a1 b2 heq hne hbol2
    have hlen : a1.length < pre.length := by
      rw [heq, List.length_append]
      cases b2 with
      | nil => exact absurd rfl hne
      | cons x y => simp
    have htake : pre.take a1.length = a1 := by
      rw [heq, take_length_append]
    have hdrop : pre.drop a1.length = b2 := by
      rw [heq, drop_length_append]
    have := hno a1.length (List.mem_range.mpr hlen)
    rw [htake, hdrop] at this
    exact this hbol2

/-- A line of the mask/text shape: `<name>0x<mask>):<body><rest>`. -/
def maskLine (nm : String) (mask body rest : List Char) : List Char :=
  nm.toList ++ ('0' :: 'x' :: (mask ++ (')' :: ':' :: (body ++ rest))))

lemma statusMaskText_found {nm : String} {lo2 : Nat}
    {pre mask body rest : List Char}
    (hpre : pre = [] ∨ pre.getLast? = some '\n')
    (hno : noEarlierStart nm pre (maskLine nm mask body rest))
    (hmaskne : mask ≠ []) (hmaskhex : mask.all isHexChar = true)
    (hbody : body.all reDot = true)
    (hbtail : body.dropWhile pyWs ≠ [])
    (hlo2 : lo2 ≤ 1)
    (hrest : rest = [] ∨ rest.head? = some '\n') :
    statusMaskText (maskTextRe nm lo2) (pre ++ maskLine nm mask body rest)
      = some ⟨String.mk ('0' :: 'x' :: mask), String.mk (pyStripL body)⟩ := by
  obtain ⟨u, s2, h⟩ := reSearch_maskText hpre hno hmaskne hmaskhex hbody
    hbtail hlo2 hrest
  unfold statusMaskText
  rw [show (pre ++ maskLine nm mask body rest)
      = pre ++ (nm.toList ++ ('0' :: 'x' ::
        (mask ++ (')' :: ':' :: (body ++ rest))))) from rfl, h]
  simp only [Option.map_some']
  have hg1 : grpOf [(2, body.dropWhile pyWs), (1, '0' :: 'x' :: mask)] 1
      = '0' :: 'x' :: mask := by
    simp [grpOf, capGet, List.find?]
  have hg2 : grpOf [(2, body.dropWhile pyWs), (1, '0' :: 'x' :: mask)] 2
      = body.dropWhile pyWs := by
    simp [grpOf, capGet, List.find?]
  rw [hg1, hg2]
  have hstrip : pyStripL (body.dropWhile pyWs) = pyStripL body := by
    unfold pyStripL
    rw [List.dropWhile_idempotent]
  rw [hstrip]

lemma statusMaskText_found_empty {nm : String} {pre mask body : List Char}
    (hpre : pre = [] ∨ pre.getLast? = some '\n')
    (hno : noEarlierStart nm pre (maskLine nm mask body []))
    (hmaskne : mask ≠ []) (hmaskhex : mask.all isHexChar = true)
    (hbodyws : body.all pyWs = true) :
    statusMaskText (maskTextRe nm 0) (pre ++ maskLine nm mask body [])
      = some ⟨String.mk ('0' :: 'x' :: mask), String.mk []⟩ := by
  have hbol : bolOk (prevOf pre none) = true := by
    rcases hpre with rfl | hl
    · rfl
    · unfold prevOf
      rw [hl]
      simp [bolOk]
  have hline : maskLine nm mask body []
      = nm.toList ++ ('0' :: 'x' :: (mask ++ (')' :: ':' :: body))) := by
    unfold maskLine
    rw [List.append_nil]
  have hm := @maskText_match_here_empty nm (prevOf pre none) mask body
    hbol hmaskne hmaskhex hbodyws
  unfold statusMaskText
  rw [show reSearch (maskTextRe nm 0) (pre ++ maskLine nm mask body [])
      = searchAux (maskTextRe nm 0) none (pre ++ maskLine nm mask body [])
      from rfl]
  rw [searchAux_skip pre none _ ?hskip]
  case hskip =>
    intro a1 b2 heq hne hbol2
    have hlen : a1.length < pre.length := by
      rw [heq, List.length_append]
      cases b2 with
      | nil => exact absurd rfl hne
      | cons x y => simp
    have htake : pre.take a1.length = a1 := by
      rw [heq, take_length_append]
    have hdrop : pre.drop a1.length = b2 := by
      rw [heq, drop_length_append]
    have := hno a1.length (List.mem_range.mpr hlen)
    rw [htake, hdrop] at this
    exact this hbol2
  rw [hline, searchAux_here hm]
  simp only [Option.map_some']
  have hg1 : grpOf [(2, []), (1, '0' :: 'x' :: mask)] 1
      = '0' :: 'x' :: mask := by
    simp [grpOf, capGet, List.find?]
  have hg2 : grpOf [(2, []), (1, '0' :: 'x' :: mask)] 2 = ([] : List Char) := by
    simp [grpOf, capGet, List.find?]
  rw [hg1, hg2]
  rfl

lemma exceptBind_ok {α β : Type} {x : Except Unit α} {f : α → Except Unit β}
    {r : β} (h : x >>= f = .ok r) : ∃ a, x = .ok a ∧ f a = .ok r := by
  cases x with
  | error e => exact Except.noConfusion h
  | ok a => exact ⟨a, rfl, h⟩

lemma filter_no_cr {t : List Char} (h : '\r' ∉ t) :
    t.filter (fun c => c ≠ '\r') = t := by
  rw [List.filter_eq_self]
  intro a ha
  simp only [ne_eq, decide_eq_true_eq]
  exact fun heq => h (heq ▸ ha)

/-- Whatever the fallible components do, a successful parse fills the
`warning`/`error`/`lock` fields from the three mask/text searches over the
`\r`-stripped text. -/
lemma parse_status_ok_masks {text : String} {r : StatusParsed}
    (h : parse_status_block text = .ok r) :
    r.warning = statusMaskText warnRe (text.toList.filter (fun c => c ≠ '\r'))
    ∧ r.error = statusMaskText errRe (text.toList.filter (fun c => c ≠ '\r'))
    ∧ r.lock = statusMaskText lockRe (text.toList.filter (fun c => c ≠ '\r')) := by
  simp only [parse_status_block] at h
  rcases exceptBind_ok h with ⟨power_out, h1, h⟩
  rcases exceptBind_ok h with ⟨power_param, h2, h⟩
  rcases exceptBind_ok h with ⟨power_drive, h3, h⟩
  rcases exceptBind_ok h with ⟨drive_volt, h4, h⟩
  rcases exceptBind_ok h with ⟨drive_current, h5, h⟩
  rcases exceptBind_ok h with ⟨pilot, h6, h⟩
  rcases exceptBind_ok h with ⟨pd, h7, h⟩
  rcases exceptBind_ok h with ⟨ntc, h8, h⟩
  rcases exceptBind_ok h with ⟨pressure, h9, h⟩
  rcases exceptBind_ok h with ⟨air_hr, h10, h⟩
  rcases exceptBind_ok h with ⟨air_t, h11, h⟩
  rcases exceptBind_ok h with ⟨env, h12, h⟩
  injection h with h
  subst h
  exact ⟨rfl, rfl, rfl⟩

lemma firstSome_congr {A : Type} {f g : Nat → Option A} {ls : List Nat}
    (h : ∀ n ∈ ls, f n = g n) : firstSome f ls = firstSome g ls := by
  induction ls with
  | nil => rfl
  | cons n ns ih =>
    rw [firstSome, firstSome, h n (by simp)]
    cases g n with
    | some v => rfl
    | none => exact ih (fun m hm => h m (by simp [hm]))

lemma matchTok_wsS (prev : Option Char) (s : List Char) (caps : Caps)
    (k : MK) :
    matchTok wsS prev s caps k =
      firstSome (fun n => k (prevOf (s.take n) prev) (s.drop n) caps)
        (lensFor 0 (s.takeWhile pyWs).length false) := by
  rw [show wsS = RTok.cls pyWs 0 none false from rfl, matchTok_cls]
  rfl

lemma ws_eol_nil (p : Option Char) (caps : Caps) :
    match2 [R2.tok wsS, R2.tok RTok.eolM] p [] caps mkDone
      = some (caps, []) := rfl

/-- After the colon's `\s*` has consumed some prefix, `(.+)\s*$` on a
whitespace-only remainder at the end of input captures the whole remainder
(empty remainder: no match, `.+` needs a character). -/
lemma grp2_ws_tail {p : Option Char} {caps : Caps} {s : List Char}
    (hdot : s.all reDot = true) :
    match2 [R2.grp 2 [R1.tok (.cls reDot 1 none false)], R2.tok wsS,
      R2.tok RTok.eolM] p s caps mkDone
      = if s = [] then none else some ((2, s) :: caps, []) := by
  cases s with
  | nil => rfl
  | cons c t =>
    rw [if_neg (by simp)]
    rw [match2_grp, match1_tok]
    have hrun : ((c :: t).takeWhile reDot) = c :: t := takeWhile_of_all hdot
    apply matchTok_cls_greedy_max (by rw [hrun]; simp)
    rw [hrun, List.drop_length, match1_nil]
    have hcap : (c :: t).take ((c :: t).length - ([] : List Char).length)
        = c :: t := by simp
    rw [hcap]
    exact ws_eol_nil _ _

/-- Candidate outcomes for the `\s*` backtracking over a whitespace-only
body at the end of input. -/
def wsTailCand (body : List Char) (caps : Caps) (n : Nat) :
    Option (Caps × List Char) :=
  if body.drop n = [] then none else some ((2, body.drop n) :: caps, [])

/-- `\s*(.+)\s*$` on a non-empty all-whitespace body at the end of input
succeeds; the text group captures some whitespace-only suffix of the body
(in Python terms: `\s*` backtracks until `.+` can take at least one
character). -/
lemma maskTail_wsbody {caps : Caps} {body : List Char}
    (hne : body ≠ []) (hws : body.all pyWs = true)
    (hdot : body.all reDot = true) :
    ∃ cap2, cap2.all pyWs = true ∧ ∀ p,
      match2 [R2.tok wsS, R2.grp 2 [R1.tok (.cls reDot 1 none false)],
        R2.tok wsS, R2.tok RTok.eolM] p body caps mkDone
        = some ((2, cap2) :: caps, []) := by
  have hex : ∃ n ∈ lensFor 0 ((body.takeWhile pyWs).length) false,
      (wsTailCand body caps n).isSome = true := by
    refine ⟨0, zero_mem_lensFor _, ?_⟩
    simp [wsTailCand, hne]
  obtain ⟨m, hm, heq, hsome⟩ := firstSome_eq_some_of_ex hex
  have hdm : ¬ body.drop m = [] := by
    intro hc
    rw [wsTailCand, if_pos hc] at hsome
    simp at hsome
  have hgm : wsTailCand body caps m = some ((2, body.drop m) :: caps, []) := by
    rw [wsTailCand, if_neg hdm]
  refine ⟨body.drop m, all_of_all_drop m hws, ?_⟩
  intro p
  rw [match2_tok, matchTok_wsS]
  have hcong : ∀ n, n ∈ lensFor 0 ((body.takeWhile pyWs).length) false →
      match2 [R2.grp 2 [R1.tok (.cls reDot 1 none false)], R2.tok wsS,
        R2.tok RTok.eolM] (prevOf (body.take n) p) (body.drop n) caps mkDone
        = wsTailCand body caps n := by
    intro n _
    rw [wsTailCand]
    exact grp2_ws_tail (all_of_all_drop n hdot)
  rw [firstSome_congr hcong, heq, hgm]

/-- A `WARNING(`/`ERROR(` line whose body is non-empty whitespace (no
newline) at the end of input still matches, capturing whitespace-only
text. -/
lemma maskText_match_here_ws {nm : String} {p0 : Option Char}
    {mask body : List Char}
    (hbol : bolOk p0 = true)
    (hmaskne : mask ≠ []) (hmaskhex : mask.all isHexChar = true)
    (hne : body ≠ []) (hws : body.all pyWs = true)
    (hdot : body.all reDot = true) :
    ∃ cap2, cap2.all pyWs = true ∧
      matchHere (maskTextRe nm 1) p0
        (nm.toList ++ ('0' :: 'x' :: (mask ++ (')' :: ':' :: body))))
        = some ([(2, cap2), (1, '0' :: 'x' :: mask)], []) := by
  obtain ⟨cap2, hcap2, htail⟩ :=
    @maskTail_wsbody [(1, '0' :: 'x' :: mask)] body hne hws hdot
  refine ⟨cap2, hcap2, ?_⟩
  unfold matchHere maskTextRe
  rw [match2_tok, matchTok_bol, if_pos hbol, match2_tok, matchTok_lit_build,
    match2_grp, match1_tok]
  rw [show ('0' :: 'x' :: (mask ++ (')' :: ':' :: body)))
      = ['0', 'x'] ++ (mask ++ (')' :: ':' :: body)) from rfl,
    matchTok_lit_build, match1_tok]
  have hrun : ((mask ++ (')' :: ':' :: body)).takeWhile isHexChar) = mask := by
    apply takeWhile_append_stop hmaskhex
    intro c hc
    simp only [List.head?_cons, Option.mem_def, Option.some.injEq] at hc
    exact hc ▸ (by decide)
  have hlo : 1 ≤ ((mask ++ (')' :: ':' :: body)).takeWhile
      isHexChar).length := by
    rw [hrun]
    cases mask with
    | nil => exact absurd rfl hmaskne
    | cons a t => simp
  apply matchTok_cls_greedy_max hlo
  rw [hrun, drop_length_append, match1_nil]
  have hcap1 : (['0', 'x'] ++ (mask ++ (')' :: ':' :: body))).take
      ((['0', 'x'] ++ (mask ++ (')' :: ':' :: body))).length
        - (')' :: ':' :: body).length) = '0' :: 'x' :: mask := by
    rw [show (['0', 'x'] ++ (mask ++ (')' :: ':' :: body)))
        = (('0' :: 'x' :: mask) ++ (')' :: ':' :: body)) by simp,
      take_sub_length]
  rw [hcap1, match2_tok]
  rw [show (')' :: ':' :: body) = [')', ':'] ++ body from rfl,
    matchTok_lit_build]
  exact htail _

lemma pyStripL_of_ws {cap2 : List Char} (h : cap2.all pyWs = true) :
    pyStripL cap2 = [] := by
  unfold pyStripL
  have hd : cap2.dropWhile pyWs = [] := by
    rw [List.dropWhile_eq_nil_iff]
    intro x hx
    exact List.all_eq_true.mp h x hx
  rw [hd]
  rfl

lemma statusMaskText_found_ws {nm : String} {pre mask body : List Char}
    (hpre : pre = [] ∨ pre.getLast? = some '\n')
    (hno : noEarlierStart nm pre (maskLine nm mask body []))
    (hmaskne : mask ≠ []) (hmaskhex : mask.all isHexChar = true)
    (hne : body ≠ []) (hws : body.all pyWs = true)
    (hdot : body.all reDot = true) :
    statusMaskText (maskTextRe nm 1) (pre ++ maskLine nm mask body [])
      = some ⟨String.mk ('0' :: 'x' :: mask), String.mk []⟩ := by
  have hbol : bolOk (prevOf pre none) = true := by
    rcases hpre with rfl | hl
    · rfl
    · unfold prevOf
      rw [hl]
      simp [bolOk]
  have hline : maskLine nm mask body []
      = nm.toList ++ ('0' :: 'x' :: (mask ++ (')' :: ':' :: body))) := by
    unfold maskLine
    rw [List.append_nil]
  obtain ⟨cap2, hcap2, hm⟩ := @maskText_match_here_ws nm (prevOf pre none)
    mask body hbol hmaskne hmaskhex hne hws hdot
  unfold statusMaskText
  rw [show reSearch (maskTextRe nm 1) (pre ++ maskLine nm mask body [])
      = searchAux (maskTextRe nm 1) none (pre ++ maskLine nm mask body [])
      from rfl]
  rw [searchAux_skip pre none _ ?hskip]
  case hskip =>
    intro a1 b2 heq hne2 hbol2
    have hlen : a1.length < pre.length := by
      rw [heq, List.length_append]
      cases b2 with
      | nil => exact absurd rfl hne2
      | cons x y => simp
    have htake : pre.take a1.length = a1 := by
      rw [heq, take_length_append]
    have hdrop : pre.drop a1.length = b2 := by
      rw [heq, drop_length_append]
    have := hno a1.length (List.mem_range.mpr hlen)
    rw [htake, hdrop] at this
    exact this hbol2
  rw [hline, searchAux_here hm]
  simp only [Option.map_some']
  have hg1 : grpOf [(2, cap2), (1, '0' :: 'x' :: mask)] 1
      = '0' :: 'x' :: mask := by
    simp [grpOf, capGet, List.find?]
  have hg2 : grpOf [(2, cap2), (1, '0' :: 'x' :: mask)] 2 = cap2 := by
    simp [grpOf, capGet, List.find?]
  rw [hg1, hg2, pyStripL_of_ws hcap2]

/-- **C8, counterexample.** A status text containing the line
`ERROR(0xBEEF):` — hexadecimal mask, empty text — produces *no* `error`
field at all: `(.+)` needs at least one character after the colon, so the
claim's "including when that text is empty" is wrong for WARNING/ERROR
(and for a bare `LOCK(...)` line the claim holds only because `(.*)` may
be empty). -/
theorem C8_mask_text_counterexample :
    parse_status_block "ERROR(0xBEEF):" = .ok {} ∧
    ({} : StatusParsed).error = none := by
  exact ⟨by with_unfolding_all decide, rfl⟩

/-- **C8, amended.** For a status text `pre ++ <name>(0x<mask>):<body><rest>`
in which `pre` ends a line (or is empty), no line of `pre` starts with the
pattern name, the mask is non-empty hexadecimal, and `rest` starts a new
line (or is empty): if the body contains a non-whitespace character and no
newline, a successful parse fills the corresponding field with mask
`0x<mask>` and the stripped body text (first three conjuncts: WARNING,
ERROR, LOCK).  The text may be empty: a body of one or more whitespace
characters at the end of the input yields text `""` for WARNING and ERROR
too (`\s*` backtracks so that `(.+)` takes a whitespace character; fourth
and fifth conjuncts), and LOCK accepts even a completely empty body (sixth
conjunct).  Only a WARNING/ERROR line with *nothing at all* after the
colon emits no field — see the counterexample; and with only whitespace
before a following non-empty line, `\s*` crosses the newline and the text
comes from that later line, so those shapes are outside this theorem. -/
theorem C8_mask_text_amended :
    (∀ pre mask body rest,
      pre = [] ∨ pre.getLast? = some '\n' →
      noEarlierStart "WARNING(" pre (maskLine "WARNING(" mask body rest) →
      mask ≠ [] → mask.all isHexChar = true →
      body.all reDot = true → body.dropWhile pyWs ≠ [] →
      (rest = [] ∨ rest.head? = some '\n') →
      '\r' ∉ pre ++ maskLine "WARNING(" mask body rest →
      ∀ r, parse_status_block
          (String.mk (pre ++ maskLine "WARNING(" mask body rest)) = .ok r →
        r.warning = some ⟨String.mk ('0' :: 'x' :: mask),
          String.mk (pyStripL body)⟩) ∧
    (∀ pre mask body rest,
      pre = [] ∨ pre.getLast? = some '\n' →
      noEarlierStart "ERROR(" pre (maskLine "ERROR(" mask body rest) →
      mask ≠ [] → mask.all isHexChar = true →
      body.all reDot = true → body.dropWhile pyWs ≠ [] →
      (rest = [] ∨ rest.head? = some '\n') →
      '\r' ∉ pre ++ maskLine "ERROR(" mask body rest →
      ∀ r, parse_status_block
          (String.mk (pre ++ maskLine "ERROR(" mask body rest)) = .ok r →
        r.error = some ⟨String.mk ('0' :: 'x' :: mask),
          String.mk (pyStripL body)⟩) ∧
    (∀ pre mask body rest,
      pre = [] ∨ pre.getLast? = some '\n' →
      noEarlierStart "LOCK(" pre (maskLine "LOCK(" mask body rest) →
      mask ≠ [] → mask.all isHexChar = true →
      body.all reDot = true → body.dropWhile pyWs ≠ [] →
      (rest = [] ∨ rest.head? = some '\n') →
      '\r' ∉ pre ++ maskLine "LOCK(" mask body rest →
      ∀ r, parse_status_block
          (String.mk (pre ++ maskLine "LOCK(" mask body rest)) = .ok r →
        r.lock = some ⟨String.mk ('0' :: 'x' :: mask),
          String.mk (pyStripL body)⟩) ∧
    (∀ pre mask body,
      pre = [] ∨ pre.getLast? = some '\n' →
      noEarlierStart "WARNING(" pre (maskLine "WARNING(" mask body []) →
      mask ≠ [] → mask.all isHexChar = true →
      body ≠ [] → body.all pyWs = true → body.all reDot = true →
      '\r' ∉ pre ++ maskLine "WARNING(" mask body [] →
      ∀ r, parse_status_block
          (String.mk (pre ++ maskLine "WARNING(" mask body [])) = .ok r →
        r.warning = some ⟨String.mk ('0' :: 'x' :: mask), String.mk []⟩) ∧
    (∀ pre mask body,
      pre = [] ∨ pre.getLast? = some '\n' →
      noEarlierStart "ERROR(" pre (maskLine "ERROR(" mask body []) →
      mask ≠ [] → mask.all isHexChar = true →
      body ≠ [] → body.all pyWs = true → body.all reDot = true →
      '\r' ∉ pre ++ maskLine "ERROR(" mask body [] →
      ∀ r, parse_status_block
          (String.mk (pre ++ maskLine "ERROR(" mask body [])) = .ok r →
        r.error = some ⟨String.mk ('0' :: 'x' :: mask), String.mk []⟩) ∧
    (∀ pre mask body,
      pre = [] ∨ pre.getLast? = some '\n' →
      noEarlierStart "LOCK(" pre (maskLine "LOCK(" mask body []) →
      mask ≠ [] → mask.all isHexChar = true →
      body.all pyWs = true →
      '\r' ∉ pre ++ maskLine "LOCK(" mask body [] →
      ∀ r, parse_status_block
          (String.mk (pre ++ maskLine "LOCK(" mask body [])) = .ok r →
        r.lock = some ⟨String.mk ('0' :: 'x' :: mask), String.mk []⟩) := by
  refine ⟨?_, ?_, ?_, ?_, ?_, ?_⟩
  · intro pre mask body rest hpre hno hm1 hm2 hb1 hb2 hrest hcr r hok
    rw [(parse_status_ok_masks hok).1, toList_mk, filter_no_cr hcr]
    exact statusMaskText_found hpre hno hm1 hm2 hb1 hb2 (by omega) hrest
  · intro pre mask body rest hpre hno hm1 hm2 hb1 hb2 hrest hcr r hok
    rw [(parse_status_ok_masks hok).2.1, toList_mk, filter_no_cr hcr]
    exact statusMaskText_found hpre hno hm1 hm2 hb1 hb2 (by omega) hrest
  · intro pre mask body rest hpre hno hm1 hm2 hb1 hb2 hrest hcr r hok
    rw [(parse_status_ok_masks hok).2.2, toList_mk, filter_no_cr hcr]
    exact statusMaskText_found hpre hno hm1 hm2 hb1 hb2 (by omega) hrest
  · intro pre mask body hpre hno hm1 hm2 hb1 hb2 hb3 hcr r hok
    rw [(parse_status_ok_masks hok).1, toList_mk, filter_no_cr hcr]
    exact statusMaskText_found_ws hpre hno hm1 hm2 hb1 hb2 hb3
  · intro pre mask body hpre hno hm1 hm2 hb1 hb2 hb3 hcr r hok
    rw [(parse_status_ok_masks hok).2.1, toList_mk, filter_no_cr hcr]
    exact statusMaskText_found_ws hpre hno hm1 hm2 hb1 hb2 hb3
  · intro pre mask body hpre hno hm1 hm2 hbws hcr r hok
    rw [(parse_status_ok_masks hok).2.2, toList_mk, filter_no_cr hcr]
    exact statusMaskText_found_empty hpre hno hm1 hm2 hbws

set_option maxRecDepth 4000 in
theorem C8_mask_text_amended_witness :
    (parse_status_block "WARNING(0xA1F): hot "
        = .ok { warning := some ⟨"0xA1F", "hot"⟩ } ∧
      ({ warning := some ⟨"0xA1F", "hot"⟩ } : StatusParsed).warning
        = some ⟨String.mk ('0' :: 'x' :: "A1F".toList),
            String.mk (pyStripL " hot ".toList)⟩) ∧
    (parse_status_block "X\nERROR(0xBEEF): overheat"
        = .ok { error := some ⟨"0xBEEF", "overheat"⟩ } ∧
      ({ error := some ⟨"0xBEEF", "overheat"⟩ } : StatusParsed).error
        = some ⟨String.mk ('0' :: 'x' :: "BEEF".toList),
            String.mk (pyStripL " overheat".toList)⟩) ∧
    (parse_status_block "LOCK(0x0): x\nTEM:5"
        = .ok { lock := some ⟨"0x0", "x"⟩, tem := some 5 } ∧
      ({ lock := some ⟨"0x0", "x"⟩, tem := some 5 } : StatusParsed).lock
        = some ⟨String.mk ('0' :: 'x' :: "0".toList),
            String.mk (pyStripL " x".toList)⟩) ∧
    (parse_status_block "WARNING(0x1): "
        = .ok { warning := some ⟨"0x1", ""⟩ } ∧
      ({ warning := some ⟨"0x1", ""⟩ } : StatusParsed).warning
        = some ⟨String.mk ('0' :: 'x' :: "1".toList), String.mk []⟩) ∧
    (parse_status_block "ERROR(0x2):\t"
        = .ok { error := some ⟨"0x2", ""⟩ } ∧
      ({ error := some ⟨"0x2", ""⟩ } : StatusParsed).error
        = some ⟨String.mk ('0' :: 'x' :: "2".toList), String.mk []⟩) ∧
    (parse_status_block "LOCK(0xFF): "
        = .ok { lock := some ⟨"0xFF", ""⟩ } ∧
      ({ lock := some ⟨"0xFF", ""⟩ } : StatusParsed).lock
        = some ⟨String.mk ('0' :: 'x' :: "FF".toList), String.mk []⟩) := by
  refine ⟨⟨by with_unfolding_all decide, ?_⟩, ⟨by with_unfolding_all decide, ?_⟩,
    ⟨by with_unfolding_all decide, ?_⟩, ⟨by with_unfolding_all decide, ?_⟩,
    ⟨by with_unfolding_all decide, ?_⟩, ⟨by with_unfolding_all decide, ?_⟩⟩
  · exact C8_mask_text_amended.1 [] "A1F".toList " hot ".toList []
      (Or.inl rfl) (by decide) (by decide) (by decide) (by decide) (by decide)
      (Or.inl rfl) (by decide) { warning := some ⟨"0xA1F", "hot"⟩ }
      (by with_unfolding_all decide)
  · exact C8_mask_text_amended.2.1 ['X', '\n'] "BEEF".toList
      " overheat".toList [] (Or.inr rfl) (by decide) (by decide) (by decide)
      (by decide) (by decide) (Or.inl rfl) (by decide)
      { error := some ⟨"0xBEEF", "overheat"⟩ } (by with_unfolding_all decide)
  · exact C8_mask_text_amended.2.2.1 [] "0".toList " x".toList
      ['\n', 'T', 'E', 'M', ':', '5'] (Or.inl rfl) (by decide) (by decide)
      (by decide) (by decide) (by decide) (Or.inr rfl) (by decide)
      { lock := some ⟨"0x0", "x"⟩, tem := some 5 } (by with_unfolding_all decide)
  · exact C8_mask_text_amended.2.2.2.1 [] "1".toList [' ']
      (Or.inl rfl) (by decide) (by decide) (by decide) (by decide) (by decide)
      (by decide) (by decide) { warning := some ⟨"0x1", ""⟩ }
      (by with_unfolding_all decide)
  · exact C8_mask_text_amended.2.2.2.2.1 [] "2".toList ['\t']
      (Or.inl rfl) (by decide) (by decide) (by decide) (by decide) (by decide)
      (by decide) (by decide) { error := some ⟨"0x2", ""⟩ }
      (by with_unfolding_all decide)
  · exact C8_mask_text_amended.2.2.2.2.2 [] "FF".toList [' ']
      (Or.inl rfl) (by decide) (by decide) (by decide) (by decide) (by decide)
      { lock := some ⟨"0xFF", ""⟩ } (by with_unfolding_all decide)

/-! ## 5. Telemetry debounce (`telemetry.py`)

`TelemetryHub._fingerprint` serialises the eleven debounce-relevant fields
with `json.dumps(sort_keys=True)`.  The embedding keeps the canonical value
instead of its serialisation: two parsed statuses get the same JSON text
exactly when these typed fields coincide, with `io_flags` compared after
key-sorting (JSON sorts nested dict keys) and NaN components of `env`
compared equal (every NaN prints as `NaN`).  The hub state is the cached
`_last_fingerprint`. -/

structure FingerprintCore where
  work_state : Option String
  work_mode : Option String
  laser_state : Option String
  power_out : Option PowerOut
  warning : Option MaskText
  error : Option MaskText
  lock : Option MaskText
  io_flags : Option (List (String × ℤ))
  env : Option EnvSummary
  pressure : Option ScalarAdc
  tem : Option ℤ
deriving DecidableEq, Repr

def insertSorted (x : String × ℤ) : List (String × ℤ) → List (String × ℤ)
  | [] => [x]
  | y :: t => if x.1 ≤ y.1 then x :: y :: t else y :: insertSorted x t

def sortByKey (m : List (String × ℤ)) : List (String × ℤ) :=
  m.foldr insertSorted []

def TelemetryHub.fingerprint (parsed : StatusParsed) : FingerprintCore :=
  { work_state := parsed.work_state
    work_mode := parsed.work_mode
    laser_state := parsed.laser_state
    power_out := parsed.power_out
    warning := parsed.warning
    error := parsed.error
    lock := parsed.lock
    io_flags := parsed.io_flags.map sortByKey
    env := parsed.env
    pressure := parsed.pressure
    tem := parsed.tem }

/-- `changed`: compare against the cached fingerprint, updating the cache
on a difference.  Returns the result and the new cache. -/
def TelemetryHub.changed (parsed : StatusParsed)
    (last : Option FingerprintCore) : Bool × Option FingerprintCore :=
  let fp := TelemetryHub.fingerprint parsed
  if some fp ≠ last then (true, some fp) else (false, last)

/-- Python `==` on floats: NaN is unequal to everything, itself included. -/
def PyFloat.pyEq : PyFloat → PyFloat → Bool
  | .nan, _ => false
  | _, .nan => false
  | .val a, .val b => a == b

def EnvSummary.pyEq (a b : EnvSummary) : Bool :=
  (PyFloat.pyEq a.temp_c b.temp_c && PyFloat.pyEq a.pres_kpa b.pres_kpa)
    && PyFloat.pyEq a.dew b.dew

/-! ## 5.1 Poll loop events (`poll_status_loop`)

One iteration of the loop body, as a function of the `msh.exec("status")`
outcome and the hub cache: the emitted events in broadcast order and the
new cache.  An exception from either `exec` or `parse_status_block` lands
in the same `except` arm (`ok = False`). -/

inductive PollEvent where
  | heartbeat
  | status (p : StatusParsed)
  | status_error
deriving DecidableEq, Repr

def pollIteration (res : Except Unit String) (last : Option FingerprintCore) :
    List PollEvent × Option FingerprintCore :=
  match res with
  | .error _ => ([.status_error], last)
  | .ok stdout =>
    match parse_status_block stdout with
    | .error _ => ([.status_error], last)
    | .ok parsed =>
      let c := TelemetryHub.changed parsed last
      (.heartbeat :: (if c.1 then [.status parsed] else []), c.2)

lemma changed_cache (p : StatusParsed) (last : Option FingerprintCore) :
    (TelemetryHub.changed p last).2 = some (TelemetryHub.fingerprint p) := by
  simp only [TelemetryHub.changed]
  split_ifs with h
  · rfl
  · exact (not_ne_iff.mp h).symm

/-- **C4, counterexample.** Two statuses whose `env` holds a NaN dew point
differ in a debounce-relevant field under Python comparison (`NaN != NaN`,
so the two parses of the same `Temp/Pres` line compare unequal), yet the
second `changed` call returns false: the fingerprint serialises every NaN
as the same text `NaN`. -/
theorem C4_changed_counterexample :
    EnvSummary.pyEq ⟨.val 25, .val 100, .nan⟩ ⟨.val 25, .val 100, .nan⟩
      = false ∧
    (TelemetryHub.changed { env := some ⟨.val 25, .val 100, .nan⟩ }
      (TelemetryHub.changed { env := some ⟨.val 25, .val 100, .nan⟩ }
        none).2).1 = false := by
  refine ⟨?_, ?_⟩ <;> with_unfolding_all decide

/-- **C4, amended.** On a fresh hub `changed` returns true; an immediate
repeat with the same status returns false; a second call returns true
whenever the canonical fingerprints differ (in particular whenever a
plainly-compared field such as `work_state` differs) — but not for every
Python-level field difference, see the NaN counterexample; the cache holds
the new fingerprint after every true and is left untouched by a false. -/
theorem C4_changed_amended :
    (∀ p : StatusParsed, (TelemetryHub.changed p none).1 = true) ∧
    (∀ p last,
      (TelemetryHub.changed p (TelemetryHub.changed p last).2).1 = false) ∧
    (∀ p q last, TelemetryHub.fingerprint p ≠ TelemetryHub.fingerprint q →
      (TelemetryHub.changed q (TelemetryHub.changed p last).2).1 = true) ∧
    (∀ p q last, p.work_state ≠ q.work_state →
      (TelemetryHub.changed q (TelemetryHub.changed p last).2).1 = true) ∧
    (∀ p last,
      (TelemetryHub.changed p last).2 = some (TelemetryHub.fingerprint p)) ∧
    (∀ p last, (TelemetryHub.changed p last).1 = false →
      (TelemetryHub.changed p last).2 = last) := by
  have hdiff : ∀ p q last,
      TelemetryHub.fingerprint p ≠ TelemetryHub.fingerprint q →
      (TelemetryHub.changed q (TelemetryHub.changed p last).2).1 = true := by
    intro p q last h
    rw [changed_cache]
    simp only [TelemetryHub.changed]
    rw [if_pos]
    simp only [ne_eq, Option.some.injEq]
    exact fun hqp => h hqp.symm
  refine ⟨?_, ?_, hdiff, ?_, changed_cache, ?_⟩
  · intro p
    simp [TelemetryHub.changed]
  · intro p last
    rw [changed_cache]
    simp [TelemetryHub.changed]
  · intro p q last h
    exact hdiff p q last
      (fun hf => h (congrArg FingerprintCore.work_state hf))
  · intro p last h
    simp only [TelemetryHub.changed] at h ⊢
    by_cases hc : some (TelemetryHub.fingerprint p) ≠ last
    · rw [if_pos hc] at h
      exact absurd h (by simp)
    · rw [if_neg hc]

theorem C4_changed_amended_witness :
    (TelemetryHub.changed { work_state := some "RUN" }
      (TelemetryHub.changed ({} : StatusParsed) none).2).1 = true ∧
    (TelemetryHub.changed ({} : StatusParsed) none).1 = true :=
  ⟨C4_changed_amended.2.2.2.1 {} { work_state := some "RUN" } none
    (by decide), C4_changed_amended.1 {}⟩

lemma pollIteration_ok (stdout : String) (last : Option FingerprintCore) :
    pollIteration (.ok stdout) last
      = match parse_status_block stdout with
        | .error _ => ([.status_error], last)
        | .ok parsed =>
          (PollEvent.heartbeat ::
            (if (TelemetryHub.changed parsed last).1
              then [.status parsed] else []),
           (TelemetryHub.changed parsed last).2) := rfl

/-- **C5, counterexample.** `msh.exec("status")` can succeed while
`parse_status_block` raises (see the `1..2` inputs): the iteration then
emits `status_error` and no heartbeat, although the claim promises a
heartbeat for every iteration in which `exec` succeeds. -/
theorem C5_poll_counterexample :
    pollIteration (.ok "Dew: 1..2") none = ([.status_error], none) ∧
    PollEvent.heartbeat ∉ (pollIteration (.ok "Dew: 1..2") none).1 := by
  refine ⟨?_, ?_⟩ <;> with_unfolding_all decide

/-- **C5, amended.** When `exec` succeeds *and* its output parses, the
iteration emits a heartbeat, followed by a status event exactly when
`hub.changed` fires, and the cache advances accordingly; when `exec`
succeeds but parsing raises, or when `exec` itself raises, it emits only
`status_error` and leaves the cache alone. -/
theorem C5_poll_amended :
    (∀ stdout last p, parse_status_block stdout = .ok p →
      (pollIteration (.ok stdout) last).1
        = .heartbeat :: (if (TelemetryHub.changed p last).1
            then [.status p] else []) ∧
      (pollIteration (.ok stdout) last).2
        = (TelemetryHub.changed p last).2) ∧
    (∀ stdout last, parse_status_block stdout = .error () →
      pollIteration (.ok stdout) last = ([.status_error], last)) ∧
    (∀ last, pollIteration (.error ()) last = ([.status_error], last)) := by
  refine ⟨?_, ?_, ?_⟩
  · intro stdout last p h
    rw [pollIteration_ok, h]
    exact ⟨rfl, rfl⟩
  · intro stdout last h
    rw [pollIteration_ok, h]
  · intro last
    rfl

theorem C5_poll_amended_witness :
    (pollIteration (.ok "TEM:7") none).1
      = [.heartbeat, .status { tem := some 7 }] ∧
    pollIteration (.ok "Dew: 1..2") (some (TelemetryHub.fingerprint {}))
      = ([.status_error], some (TelemetryHub.fingerprint {})) :=
  ⟨((C5_poll_amended.1 "TEM:7" none { tem := some 7 }
      (by with_unfolding_all decide)).1).trans (by with_unfolding_all decide),
   C5_poll_amended.2.1 "Dew: 1..2" (some (TelemetryHub.fingerprint {}))
      (by with_unfolding_all decide)⟩

/-! ## 6. Audit logger (`audit.py`)

Event dicts are association lists over an opaque-enough value type; the
queue is a bounded list; `log` is synchronous, so no consumer runs between
its two `put_nowait` attempts. -/

inductive PyVal where
  | vint (n : ℤ)
  | vstr (s : String)
deriving DecidableEq, Repr

def dictContains (m : List (String × PyVal)) (k : String) : Bool :=
  m.any (fun x => x.1 == k)

/-- `dict.setdefault(k, v)`: insert at the end when the key is absent. -/
def setdefault (m : List (String × PyVal)) (k : String) (v : PyVal) :
    List (String × PyVal) :=
  if dictContains m k then m else m ++ [(k, v)]

/-- The enrichment performed by `AuditLogger.log` on its private copy. -/
def enrich (event : List (String × PyVal)) (now pidv : ℤ) :
    List (String × PyVal) :=
  setdefault (setdefault event "ts_ms" (.vint now)) "pid" (.vint pidv)

structure AuditState where
  queue : List (List (String × PyVal))
  dropped : ℤ
  maxq : Nat
  pid : ℤ
deriving DecidableEq, Repr

/-- `Queue.put_nowait`: fails (raises `QueueFull`) when the queue holds
`maxsize` items. -/
def put_nowait (st : AuditState) (d : List (String × PyVal)) :
    Option AuditState :=
  if st.queue.length < st.maxq then some { st with queue := st.queue ++ [d] }
  else none

/-- `AuditLogger.log`: copy, enrich, best-effort enqueue; on `QueueFull`
bump the drop counter and try once more with the synthetic
`audit_drop` record. -/
def AuditLogger.log (st : AuditState) (event : List (String × PyVal))
    (now now2 : ℤ) : AuditState :=
  let enriched := enrich event now st.pid
  match put_nowait st enriched with
  | some st2 => st2
  | none =>
    let st2 : AuditState := { st with dropped := st.dropped + 1 }
    match put_nowait st2 [("kind", .vstr "audit_drop"), ("ts_ms", .vint now2),
        ("pid", .vint st2.pid), ("dropped_total", .vint st2.dropped)] with
    | some st3 => st3
    | none => st2

/-! ### 6.1 The heap model for the frame property

`log` mutates only the fresh copy `enriched = dict(event)`; the caller's
dict is a heap cell that the function never writes. -/

abbrev Heap := List (List (String × PyVal))

/-- The mutating prefix of `log` on an explicit heap: allocate the copy of
cell `r`, then run the two in-place `setdefault`s on the copy; returns the
new heap and the reference to the enriched record that gets enqueued. -/
def AuditLogger.log_frame (h : Heap) (r : Nat) (now pidv : ℤ) : Heap × Nat :=
  let h1 : Heap := h ++ [h.getD r []]
  let i := h.length
  let h2 : Heap := h1.set i (setdefault (h1.getD i []) "ts_ms" (.vint now))
  let h3 : Heap := h2.set i (setdefault (h2.getD i []) "pid" (.vint pidv))
  (h3, i)

lemma mem_setdefault {m : List (String × PyVal)} {k : String} {v : PyVal}
    (k2 : String) (v2 : PyVal) (h : (k, v) ∈ m) :
    (k, v) ∈ setdefault m k2 v2 := by
  unfold setdefault
  split_ifs with hc
  · exact h
  · exact List.mem_append_left _ h

lemma contains_setdefault_self (m : List (String × PyVal)) (k : String)
    (v : PyVal) : dictContains (setdefault m k v) k = true := by
  unfold setdefault
  split_ifs with hc
  · exact hc
  · unfold dictContains
    rw [List.any_append]
    simp [List.any_cons]

lemma contains_setdefault_mono {m : List (String × PyVal)} {k : String}
    (k2 : String) (v2 : PyVal) (h : dictContains m k = true) :
    dictContains (setdefault m k2 v2) k = true := by
  unfold setdefault
  split_ifs with hc
  · exact h
  · unfold dictContains at h ⊢
    rw [List.any_append, h]
    rfl

lemma setdefault_of_contains {m : List (String × PyVal)} {k : String}
    (v : PyVal) (h : dictContains m k = true) : setdefault m k v = m := by
  unfold setdefault
  rw [if_pos h]

lemma put_nowait_ok {st : AuditState} {d : List (String × PyVal)}
    (h : st.queue.length < st.maxq) :
    put_nowait st d = some { st with queue := st.queue ++ [d] } := by
  unfold put_nowait
  rw [if_pos h]

lemma put_nowait_full {st : AuditState} {d : List (String × PyVal)}
    (h : ¬ st.queue.length < st.maxq) : put_nowait st d = none := by
  unfold put_nowait
  rw [if_neg h]

/-- **C9.** `log` enqueues the enriched copy when the queue has room and
leaves the drop counter alone; on a full queue it drops the event and bumps
the counter, and — because `log` is synchronous and the queue is still
full — the synthetic `audit_drop` put also fails, so the state change is
exactly the counter bump.  Enrichment adds `ts_ms`/`pid` only when absent
and never removes an entry. -/
theorem C9_audit_log_enqueue_drop :
    ∀ (st : AuditState) (event : List (String × PyVal)) (now now2 : ℤ),
      (st.queue.length < st.maxq →
        AuditLogger.log st event now now2
          = { st with queue := st.queue ++ [enrich event now st.pid] }) ∧
      (¬ st.queue.length < st.maxq →
        AuditLogger.log st event now now2
          = { st with dropped := st.dropped + 1 }) ∧
      (∀ k v, (k, v) ∈ event → (k, v) ∈ enrich event now st.pid) ∧
      dictContains (enrich event now st.pid) "ts_ms" = true ∧
      dictContains (enrich event now st.pid) "pid" = true ∧
      (dictContains event "ts_ms" = true → dictContains event "pid" = true →
        enrich event now st.pid = event) := by
  intro st event now now2
  refine ⟨?_, ?_, ?_, ?_, ?_, ?_⟩
  · intro h
    simp only [AuditLogger.log]
    rw [put_nowait_ok h]
  · intro h
    simp only [AuditLogger.log]
    rw [put_nowait_full h]
    have h2 : ¬ (AuditState.mk st.queue (st.dropped + 1) st.maxq
        st.pid).queue.length
        < (AuditState.mk st.queue (st.dropped + 1) st.maxq st.pid).maxq := h
    rw [put_nowait_full h2]
  · exact fun k v hm => mem_setdefault _ _ (mem_setdefault _ _ hm)
  · exact contains_setdefault_mono _ _ (contains_setdefault_self _ _ _)
  · exact contains_setdefault_self _ _ _
  · intro hts hpid
    unfold enrich
    rw [setdefault_of_contains _ hts, setdefault_of_contains _ hpid]

theorem C9_audit_log_enqueue_drop_witness :
    AuditLogger.log ⟨[], 0, 1, 7⟩ [("kind", .vstr "exec")] 5 6
      = ⟨[[("kind", .vstr "exec"), ("ts_ms", .vint 5), ("pid", .vint 7)]],
          0, 1, 7⟩ ∧
    AuditLogger.log ⟨[[("kind", .vstr "x")]], 0, 1, 7⟩ [] 5 6
      = ⟨[[("kind", .vstr "x")]], 1, 1, 7⟩ :=
  ⟨((C9_audit_log_enqueue_drop ⟨[], 0, 1, 7⟩ [("kind", .vstr "exec")] 5 6).1
      (by decide)).trans (by decide),
   ((C9_audit_log_enqueue_drop ⟨[[("kind", .vstr "x")]], 0, 1, 7⟩ [] 5
      6).2.1 (by decide)).trans (by decide)⟩

lemma getD_of_getElem? {l : Heap} {n : Nat} {a : List (String × PyVal)}
    (h : l[n]? = some a) : l.getD n [] = a := by
  unfold List.getD
  rw [List.get?_eq_getElem?, h]
  rfl

/-- **C10.** The mutations of `log` touch only the freshly-allocated copy:
the caller's dict (heap cell `r`) is unchanged after the call, while the
enqueued record is the enriched copy. -/
theorem C10_log_frame_unchanged :
    ∀ (h : Heap) (r : Nat) (now pidv : ℤ), r < h.length →
      ((AuditLogger.log_frame h r now pidv).1)[r]? = h[r]? ∧
      ((AuditLogger.log_frame h r now pidv).1).getD
        (AuditLogger.log_frame h r now pidv).2 []
        = enrich (h.getD r []) now pidv := by
  intro h r now pidv hr
  have g1 : (h ++ [h.getD r []]).getD h.length [] = h.getD r [] :=
    getD_of_getElem? (List.getElem?_concat_length _ _)
  simp only [AuditLogger.log_frame]
  constructor
  · have hne : List.length h ≠ r := by omega
    rw [List.getElem?_set_ne hne, List.getElem?_set_ne hne]
    exact List.getElem?_append_left hr
  · rw [g1, show enrich (h.getD r []) now pidv
        = setdefault (setdefault (h.getD r []) "ts_ms" (PyVal.vint now))
            "pid" (PyVal.vint pidv) from rfl]
    generalize setdefault (h.getD r []) "ts_ms" (PyVal.vint now) = A
    have g2 : (List.set (h ++ [h.getD r []]) h.length A).getD h.length []
        = A :=
      getD_of_getElem? (List.getElem?_set_self (by simp))
    rw [g2]
    exact getD_of_getElem? (List.getElem?_set_self (by rw [List.length_set]; simp))

theorem C10_log_frame_unchanged_witness :
    ((AuditLogger.log_frame [[("a", .vint 1)]] 0 5 7).1)[0]?
      = some [("a", .vint 1)] ∧
    ((AuditLogger.log_frame [[("a", .vint 1)]] 0 5 7).1).getD
      (AuditLogger.log_frame [[("a", .vint 1)]] 0 5 7).2 []
      = [("a", .vint 1), ("ts_ms", .vint 5), ("pid", .vint 7)] :=
  ⟨((C10_log_frame_unchanged [[("a", .vint 1)]] 0 5 7 (by decide)).1).trans
      (by decide),
   ((C10_log_frame_unchanged [[("a", .vint 1)]] 0 5 7 (by decide)).2).trans
      (by decide)⟩

end Lydia
